import Mathlib

/-!
Shallow embedding of the genxls pipeline (src/main.go): header/layout
detection, the field-definition DSL parser, the cross-language type-mapping
tables, the typed cell-value decoder with its brace-delimited array literal
format, the schema aggregation stage, and the three code emitters.

Strings are modelled at the character level (Go's byte-level UTF-8 handling
coincides with this model on ASCII data, which is all the pipeline's grammar
admits); Go maps keyed by strings are modelled as association lists or as
functions with functional update, matching the insertion/lookup pattern of
the source.
-/

deriving instance DecidableEq for Except

namespace Genxls

/-- Whitespace recognized by Go's `strings.TrimSpace` (ASCII fragment):
space, tab, newline, vertical tab, form feed, carriage return. -/
def goIsSpace (c : Char) : Bool :=
  c = ' ' || c = '\t' || c = '\n' || c.toNat = 11 || c.toNat = 12 || c = '\r'

/-- Whitespace class of Go's regexp `\s`, namely `[\t\n\f\r ]`. -/
def reIsSpace (c : Char) : Bool :=
  c = '\t' || c = '\n' || c.toNat = 12 || c = '\r' || c = ' '

/-- Trim characters satisfying `p` from both ends of a character list. -/
def trimBy (p : Char → Bool) (l : List Char) : List Char :=
  ((l.dropWhile p).reverse.dropWhile p).reverse

/-- Go `strings.TrimSpace`. -/
def goTrimSpace (s : String) : String :=
  ⟨trimBy goIsSpace s.data⟩

/-- `l` begins with `pre` (list-level prefix test). -/
def isPreL : List Char → List Char → Bool
  | [], _ => true
  | _ :: _, [] => false
  | a :: as, b :: bs => a = b && isPreL as bs

/-- `needle` occurs as a contiguous sublist of `hay`. -/
def hasSubL (needle : List Char) : List Char → Bool
  | [] => isPreL needle []
  | c :: rest => isPreL needle (c :: rest) || hasSubL needle rest

/-- Go `strings.Contains s sub`. -/
def goContains (s sub : String) : Bool :=
  hasSubL sub.data s.data

/-- Go `strings.HasPrefix s pre`. -/
def goHasPre (s pre : String) : Bool :=
  isPreL pre.data s.data

/-- Go `strings.HasSuffix s suf`. -/
def goHasSuffix (s suf : String) : Bool :=
  isPreL suf.data.reverse s.data.reverse

/-- ASCII lower-casing of one character (Go `unicode.ToLower` on ASCII). -/
def lowerChar (c : Char) : Char :=
  if 65 ≤ c.toNat ∧ c.toNat ≤ 90 then Char.ofNat (c.toNat + 32) else c

/-- ASCII upper-casing of one character (Go `unicode.ToUpper` on ASCII). -/
def upperChar (c : Char) : Char :=
  if 97 ≤ c.toNat ∧ c.toNat ≤ 122 then Char.ofNat (c.toNat - 32) else c

/-- Go `strings.ToLower` (ASCII fragment). -/
def goToLower (s : String) : String :=
  ⟨s.data.map lowerChar⟩

/-- `lowerFirst` from main.go: lower-case the first character. -/
def lowerFirst (s : String) : String :=
  match s.data with
  | [] => s
  | c :: rest => ⟨lowerChar c :: rest⟩

/-- `pluralizeTypeName` from main.go: append `es` after sibilant-like endings,
otherwise `s`. -/
def pluralizeTypeName (typeName : String) : String :=
  if typeName = "" then typeName
  else if goHasSuffix typeName "s" || goHasSuffix typeName "x" ||
      goHasSuffix typeName "z" || goHasSuffix typeName "ch" ||
      goHasSuffix typeName "sh" then
    typeName ++ "es"
  else
    typeName ++ "s"

/-- Separator characters of `exportName`'s split (underscore and hyphen). -/
def isSep (c : Char) : Bool :=
  c = '_' || c = '-'

/-- Go `strings.FieldsFunc` on the separator class: maximal runs of
non-separator characters, empties omitted. -/
def fieldsFuncL : List Char → List (List Char)
  | [] => []
  | c :: rest =>
    if isSep c then fieldsFuncL rest
    else
      (c :: rest.takeWhile (fun d => !isSep d)) ::
        fieldsFuncL (rest.dropWhile (fun d => !isSep d))
  termination_by l => l.length
  decreasing_by
    · simp_wf
    · simp_wf
      have hle : ∀ l : List Char, (l.dropWhile (fun d => !isSep d)).length ≤ l.length := by
        intro l
        induction l with
        | nil => simp [List.dropWhile]
        | cons a t ih =>
          simp only [List.dropWhile]
          split
          · exact Nat.le_trans ih (Nat.le_succ _)
          · simp
      have := hle rest
      omega

/-- Capitalization of one part inside `exportName`'s split branch:
upper-case the first character, lower-case the remainder. -/
def capPart : List Char → List Char
  | [] => []
  | c :: rest => upperChar c :: rest.map lowerChar

/-- `exportName` from main.go, at the character-list level. -/
def exportNameL (l : List Char) : List Char :=
  if l.isEmpty then l
  else if l.any isSep then ((fieldsFuncL l).map capPart).flatten
  else
    match l with
    | [] => []
    | c :: rest => upperChar c :: rest

/-- `exportName` from main.go: derive the exported (camel-cased) name. -/
def exportName (name : String) : String :=
  ⟨exportNameL name.data⟩

/-- `mapGoType` from main.go: raw type to Go type. -/
def mapGoType (t : String) : Option String :=
  match goToLower t with
  | "int" | "int32" | "int64" => some "int"
  | "int[]" => some "[]int"
  | "int[][]" => some "[][]int"
  | "float" | "float32" | "float64" => some "float64"
  | "bool" => some "bool"
  | "string" => some "string"
  | _ => none

/-- `mapCSType` from main.go: raw type to C# type. -/
def mapCSType (t : String) : Option String :=
  match goToLower t with
  | "int" | "int32" | "int64" => some "int"
  | "int[]" => some "List<int>"
  | "int[][]" => some "List<List<int>>"
  | "float" | "float32" | "float64" => some "double"
  | "bool" => some "bool"
  | "string" => some "string"
  | _ => none

/-- `mapTSType` from main.go: raw type to TypeScript type. -/
def mapTSType (t : String) : Option String :=
  match goToLower t with
  | "int" | "int32" | "int64" | "float" | "float32" | "float64" => some "number"
  | "int[]" => some "number[]"
  | "int[][]" => some "number[][]"
  | "bool" => some "boolean"
  | "string" => some "string"
  | _ => none

/-- Failure taxonomy of the pipeline; each constructor corresponds to one
error site in main.go and carries the data interpolated into its message. -/
inductive Err : Type
  | headerDetection : Err
  | unsupportedOrientation (origin : String) : Err
  | defineRowOutOfRange (row : Nat) : Err
  | invalidFieldDef (cell : String) (row : Nat) : Err
  | invalidFlag (flag : String) : Err
  | unsupportedType (t : String) : Err
  | emptySchema : Err
  | emptySheetName (origin : String) : Err
  | duplicateKey (key origin prev : String) : Err
  | atoiError (s : String) : Err
  | floatError (s : String) : Err
  | boolError (s : String) : Err
  | jsonError (s : String) : Err
  | cellParse (row col : Nat) (name : String) (inner : Err) : Err
deriving DecidableEq

/-- Typed cell values produced by `parseCellValue` (the `any` payloads of
main.go, made a tagged variant). -/
inductive Value : Type
  | intV (n : Int) : Value
  | arrV (l : List Int) : Value
  | arr2V (l : List (List Int)) : Value
  | floatV (q : Rat) : Value
  | boolV (b : Bool) : Value
  | strV (s : String) : Value
deriving DecidableEq

/-- Decimal digit run to a number; `none` when empty or a non-digit occurs. -/
def digitsToNat : List Char → Option Nat
  | [] => none
  | l => go l 0
where
  go : List Char → Nat → Option Nat
    | [], acc => some acc
    | c :: rest, acc =>
      if '0' ≤ c ∧ c ≤ '9' then go rest (acc * 10 + (c.toNat - 48))
      else none

/-- Go `strconv.Atoi`: optional sign then decimal digits (value model ignores
the 64-bit range check, which no input of this development reaches). -/
def goAtoi (s : String) : Option Int :=
  match s.data with
  | '+' :: rest => (digitsToNat rest).map Int.ofNat
  | '-' :: rest => (digitsToNat rest).map (fun n => -(n : Int))
  | l => (digitsToNat l).map Int.ofNat

/-- Exact-value model of Go `strconv.ParseFloat`: sign, integer and fraction
digits (at least one digit overall), optional decimal exponent. The value is
kept as an exact rational; `inf`, `nan` and hexadecimal floats are outside
this model and no claim touches them. -/
def goParseFloat (s : String) : Option Rat :=
  let l := s.data
  let (sign, l) : Int × List Char :=
    match l with
    | '+' :: rest => (1, rest)
    | '-' :: rest => (-1, rest)
    | l => (1, l)
  let intPart := l.takeWhile (fun c => decide ('0' ≤ c ∧ c ≤ '9'))
  let l := l.dropWhile (fun c => decide ('0' ≤ c ∧ c ≤ '9'))
  let (fracPart, l) : List Char × List Char :=
    match l with
    | '.' :: rest =>
      (rest.takeWhile (fun c => decide ('0' ≤ c ∧ c ≤ '9')),
       rest.dropWhile (fun c => decide ('0' ≤ c ∧ c ≤ '9')))
    | l => ([], l)
  if intPart.length + fracPart.length = 0 then none
  else
    let mantissa : Nat :=
      (intPart ++ fracPart).foldl (fun acc c => acc * 10 + (c.toNat - 48)) 0
    let base : Rat := (sign * mantissa : Int) / ((10 : Rat) ^ fracPart.length)
    match l with
    | [] => some base
    | e :: rest =>
      if e = 'e' ∨ e = 'E' then
        let (esign, rest) : Bool × List Char :=
          match rest with
          | '+' :: r => (false, r)
          | '-' :: r => (true, r)
          | r => (false, r)
        match digitsToNat rest with
        | some ex => some (if esign then base / (10 : Rat) ^ ex else base * (10 : Rat) ^ ex)
        | none => none
      else none

/-- Go `strconv.ParseBool`: the twelve accepted literal spellings. -/
def goParseBool (s : String) : Option Bool :=
  if s = "1" ∨ s = "t" ∨ s = "T" ∨ s = "TRUE" ∨ s = "true" ∨ s = "True" then some true
  else if s = "0" ∨ s = "f" ∨ s = "F" ∨ s = "FALSE" ∨ s = "false" ∨ s = "False" then some false
  else none

/-- JSON whitespace. -/
def jsonWs (c : Char) : Bool :=
  c = ' ' || c = '\t' || c = '\n' || c = '\r'

/-- One JSON integer literal: optional minus, then digits without a redundant
leading zero. Returns the value and the unconsumed remainder. -/
def jsonInt (l : List Char) : Option (Int × List Char) :=
  match l with
  | '-' :: rest => (jsonNat rest).map (fun p => (-(p.1 : Int), p.2))
  | l => (jsonNat l).map (fun p => ((p.1 : Int), p.2))
where
  jsonNat : List Char → Option (Nat × List Char)
    | [] => none
    | c :: rest =>
      if c = '0' then some (0, rest)
      else if '1' ≤ c ∧ c ≤ '9' then
        some ((c :: rest.takeWhile (fun d => decide ('0' ≤ d ∧ d ≤ '9'))).foldl
                (fun acc d => acc * 10 + (d.toNat - 48)) 0,
              rest.dropWhile (fun d => decide ('0' ≤ d ∧ d ≤ '9')))
      else none

/-- Comma-separated JSON integers up to the closing bracket, fuelled by the
input length (each step consumes at least one character). -/
def jsonIntElems : Nat → List Char → Option (List Int × List Char)
  | 0, _ => none
  | fuel + 1, l =>
    match jsonInt (l.dropWhile jsonWs) with
    | none => none
    | some (n, rest) =>
      match rest.dropWhile jsonWs with
      | ']' :: r => some ([n], r)
      | ',' :: r =>
        match jsonIntElems fuel r with
        | some (ns, r') => some (n :: ns, r')
        | none => none
      | _ => none

/-- Model of `json.Unmarshal` into `[]int`: a JSON array of integers and
nothing but trailing whitespace after it. -/
def jsonIntList (s : String) : Option (List Int) :=
  match s.data.dropWhile jsonWs with
  | '[' :: r =>
    match r.dropWhile jsonWs with
    | ']' :: r' => if (r'.dropWhile jsonWs).isEmpty then some [] else none
    | _ =>
      match jsonIntElems (r.length + 1) r with
      | some (ns, r') => if (r'.dropWhile jsonWs).isEmpty then some ns else none
      | none => none
  | _ => none

/-- Inner arrays of a two-dimensional JSON integer array, fuelled. -/
def jsonIntListElems : Nat → List Char → Option (List (List Int) × List Char)
  | 0, _ => none
  | fuel + 1, l =>
    match l.dropWhile jsonWs with
    | '[' :: r =>
      let inner :
          Option (List Int × List Char) :=
        match r.dropWhile jsonWs with
        | ']' :: r' => some ([], r')
        | _ => jsonIntElems (r.length + 1) r
      match inner with
      | none => none
      | some (ns, rest) =>
        match rest.dropWhile jsonWs with
        | ']' :: r' => some ([ns], r')
        | ',' :: r' =>
          match jsonIntListElems fuel r' with
          | some (nss, r'') => some (ns :: nss, r'')
          | none => none
        | _ => none
    | _ => none

/-- Model of `json.Unmarshal` into `[][]int`. -/
def jsonIntListList (s : String) : Option (List (List Int)) :=
  match s.data.dropWhile jsonWs with
  | '[' :: r =>
    match r.dropWhile jsonWs with
    | ']' :: r' => if (r'.dropWhile jsonWs).isEmpty then some [] else none
    | _ =>
      match jsonIntListElems (r.length + 1) r with
      | some (nss, r') => if (r'.dropWhile jsonWs).isEmpty then some nss else none
      | none => none
  | _ => none

/-- The brace-to-JSON preprocessing of `parseBraceArrayJSON` in main.go:
trim space, strip quote characters, map empty and `\x7b\x7d` to `[]`, replace
braces by brackets, and wrap in brackets when not already bracketed. -/
def parseBraceArrayPre (s : String) : String :=
  let t := goTrimSpace s
  let t : String := ⟨trimBy (fun c => c = '"') t.data⟩
  let t := if t = "" ∨ t = "\x7b\x7d" then "[]" else t
  let t : String :=
    ⟨t.data.map (fun c => if c = '\x7b' then '[' else if c = '\x7d' then ']' else c)⟩
  if !goHasPre (goTrimSpace t) "[" then "[" ++ t ++ "]" else t

/-- `parseCellValue` from main.go: decode one trimmed cell string at the
field's raw type. -/
def parseCellValue (rawType : String) (s : String) : Except Err Value :=
  if s = "" then
    match goToLower rawType with
    | "int" | "int32" | "int64" => .ok (.intV 0)
    | "int[]" => .ok (.arrV [])
    | "int[][]" => .ok (.arr2V [])
    | "float" | "float32" | "float64" => .ok (.floatV 0)
    | "bool" => .ok (.boolV false)
    | "string" => .ok (.strV "")
    | _ => .error (.unsupportedType rawType)
  else
    match goToLower rawType with
    | "int" | "int32" | "int64" =>
      match goAtoi s with
      | some n => .ok (.intV n)
      | none => .error (.atoiError s)
    | "int[]" =>
      match jsonIntList (parseBraceArrayPre s) with
      | some l => .ok (.arrV l)
      | none => .error (.jsonError s)
    | "int[][]" =>
      match jsonIntListList (parseBraceArrayPre s) with
      | some l => .ok (.arr2V l)
      | none => .error (.jsonError s)
    | "float" | "float32" | "float64" =>
      match goParseFloat s with
      | some q => .ok (.floatV q)
      | none => .error (.floatError s)
    | "bool" =>
      let ls := goToLower s
      if ls = "1" then .ok (.boolV true)
      else if ls = "0" then .ok (.boolV false)
      else
        match goParseBool ls with
        | some b => .ok (.boolV b)
        | none => .error (.boolError s)
    | "string" => .ok (.strV s)
    | _ => .error (.unsupportedType rawType)

/-- Table orientation (main.go `Orientation`). -/
inductive Orientation : Type
  | horizontal
  | vertical
deriving DecidableEq

/-- `HeaderSpec` from main.go: header height, orientation, 1-based define row. -/
structure HeaderSpec : Type where
  headerRows : Nat
  orientation : Orientation
  defineRow : Nat
deriving DecidableEq

/-- `rowHasFieldDefs` from main.go: some cell contains a `#`. -/
def rowHasFieldDefs (row : List String) : Bool :=
  row.any (fun c => goContains c "#")

/-- `detectHeaderSpec` from main.go: the three fixed-precedence header cases,
else failure. -/
def detectHeaderSpec (rows : List (List String)) : Except Err HeaderSpec :=
  if 3 ≤ rows.length ∧ rowHasFieldDefs (rows.getD 2 []) = true then
    let row0 := rows.getD 0 []
    let a1 := if 0 < row0.length then goTrimSpace (row0.getD 0 "") else ""
    let ori := if a1 = "2" then Orientation.vertical else Orientation.horizontal
    .ok ⟨3, ori, 3⟩
  else if 2 ≤ rows.length ∧ rowHasFieldDefs (rows.getD 1 []) = true then
    .ok ⟨2, .horizontal, 2⟩
  else if 1 ≤ rows.length ∧ rowHasFieldDefs (rows.getD 0 []) = true then
    .ok ⟨1, .horizontal, 1⟩
  else .error .headerDetection

/-- Per-field visibility flag (main.go `FieldFlag`). -/
inductive FieldFlag : Type
  | all
  | server
  | client
deriving DecidableEq

/-- `Field` from main.go. -/
structure Field : Type where
  rawName : String
  name : String
  rawType : String
  goType : String
  col : Nat
  flag : FieldFlag
deriving DecidableEq

/-- Identifier-start class of `fieldRe` (`[A-Za-z_]`). -/
def isIdentStart (c : Char) : Bool :=
  (65 ≤ c.toNat && c.toNat ≤ 90) || (97 ≤ c.toNat && c.toNat ≤ 122) || c = '_'

/-- Identifier-continuation class of `fieldRe` (`[A-Za-z0-9_]`). -/
def isIdentChar (c : Char) : Bool :=
  isIdentStart c || (48 ≤ c.toNat && c.toNat ≤ 57)

/-- Type-token class of `fieldRe` (`[^,\s]`). -/
def isTypeChar (c : Char) : Bool :=
  !(c = ',') && !(reIsSpace c)

/-- Submatches of `fieldRe`: name, raw type, optional flag character. -/
structure FieldMatch : Type where
  name : String
  ftype : String
  flagCh : Option Char
deriving DecidableEq

/-- Anchored matcher for main.go's
`fieldRe = ^\s*([A-Za-z_][A-Za-z0-9_]*)\s*#\s*([^,\s]+)\s*(?:,\s*([sc]))?\s*$`.
Every alternative of the regular expression is determined by the next
character class, so greedy token reading is an exact model. -/
def fieldReMatch (s : String) : Option FieldMatch :=
  match s.data.dropWhile reIsSpace with
  | [] => none
  | c :: rest =>
    if !isIdentStart c then none
    else
      let name : List Char := c :: rest.takeWhile isIdentChar
      match (rest.dropWhile isIdentChar).dropWhile reIsSpace with
      | '#' :: afterHash =>
        let afterWs := afterHash.dropWhile reIsSpace
        let ty := afterWs.takeWhile isTypeChar
        if ty.isEmpty then none
        else
          match (afterWs.dropWhile isTypeChar).dropWhile reIsSpace with
          | [] => some ⟨⟨name⟩, ⟨ty⟩, none⟩
          | ',' :: afterComma =>
            match afterComma.dropWhile reIsSpace with
            | f :: tail =>
              if (f = 's' ∨ f = 'c') ∧ (tail.dropWhile reIsSpace).isEmpty then
                some ⟨⟨name⟩, ⟨ty⟩, some f⟩
              else none
            | [] => none
          | _ => none
      | _ => none

/-- The flag-character switch of `parseFieldsFromDefineRow`. -/
def flagOf : Option Char → FieldFlag
  | none => .all
  | some 's' => .server
  | some 'c' => .client
  | some _ => .all

/-- The body of the per-cell loop of `parseFieldsFromDefineRow`:
`.ok none` models `continue`, `.ok (some f)` models appending a field. -/
def cellStep (exportFlag : String) (defineRow : Nat) (colIdx : Nat)
    (cellRaw : String) : Except Err (Option Field) :=
  let cell := goTrimSpace cellRaw
  if cell = "" then .ok none
  else
    let lower := goToLower cell
    if goContains lower "#comment" || goContains lower "#common" then .ok none
    else
      match fieldReMatch cell with
      | none => .error (.invalidFieldDef cell defineRow)
      | some m =>
        if goToLower m.ftype = "comment" ∨ goToLower m.ftype = "common" then .ok none
        else
          let ff := flagOf m.flagCh
          let proceed : Except Err (Option Field) :=
            match mapGoType m.ftype with
            | none => .error (.unsupportedType m.ftype)
            | some goTy =>
              .ok (some ⟨m.name, exportName m.name, m.ftype, goTy, colIdx, ff⟩)
          if exportFlag = "" then proceed
          else if exportFlag = "server" then
            if ff = .client then .ok none else proceed
          else if exportFlag = "client" then
            if ff = .server then .ok none else proceed
          else .error (.invalidFlag exportFlag)

/-- A define-row cell that the parser must reject: non-blank after trimming,
no case-insensitive `#comment`/`#common` substring, and no `fieldRe` match. -/
def isBadCell (cellRaw : String) : Bool :=
  let cell := goTrimSpace cellRaw
  !(cell = "") &&
    !(goContains (goToLower cell) "#comment" || goContains (goToLower cell) "#common") &&
    (fieldReMatch cell).isNone

/-- Pair each cell with its 0-based column index (the `range` loop's index). -/
def withIdx : Nat → List String → List (Nat × String)
  | _, [] => []
  | i, c :: rest => (i, c) :: withIdx (i + 1) rest

/-- The define-row loop of `parseFieldsFromDefineRow`: fail at the first
erring cell, keep produced fields in column order. -/
def parseCells (exportFlag : String) (defineRow : Nat) :
    List (Nat × String) → Except Err (List Field)
  | [] => .ok []
  | (i, c) :: rest =>
    match cellStep exportFlag defineRow i c with
    | .error e => .error e
    | .ok none => parseCells exportFlag defineRow rest
    | .ok (some f) =>
      match parseCells exportFlag defineRow rest with
      | .error e => .error e
      | .ok fs => .ok (f :: fs)

/-- `parseFieldsFromDefineRow` from main.go. -/
def parseFieldsFromDefineRow (rows : List (List String)) (defineRow : Nat)
    (exportFlag : String) : Except Err (List Field) :=
  if defineRow = 0 ∨ rows.length < defineRow then
    .error (.defineRowOutOfRange defineRow)
  else
    match parseCells exportFlag defineRow (withIdx 0 (rows.getD (defineRow - 1) [])) with
    | .error e => .error e
    | .ok fs => if fs.isEmpty then .error .emptySchema else .ok fs

/-- A decoded data record: `map[string]any` with overwrite-on-assign. -/
def DataRec : Type := String → Option Value

/-- The empty record (a fresh `make(map[string]any)`). -/
def emptyRec : DataRec := fun _ => none

/-- Record assignment `obj[k] = v`. -/
def recInsert (r : DataRec) (k : String) (v : Value) : DataRec :=
  fun k' => if k' = k then some v else r k'

/-- `isEmptyRow` from main.go. -/
def isEmptyRow (row : List String) : Bool :=
  row.all (fun c => goTrimSpace c = "")

/-- The cell a field reads from a data row: its column when in range,
else the empty string, trimmed. -/
def cellAt (row : List String) (col : Nat) : String :=
  if col < row.length then goTrimSpace (row.getD col "") else ""

/-- The per-row object-building loop of `readHorizontalItems`: decode each
field's cell into the record, failing with the wrapped cell error. -/
def buildObj (rowIdx : Nat) (row : List String) :
    List Field → DataRec → Except Err DataRec
  | [], obj => .ok obj
  | f :: rest, obj =>
    match parseCellValue f.rawType (cellAt row f.col) with
    | .error e => .error (.cellParse (rowIdx + 1) (f.col + 1) f.rawName e)
    | .ok v => buildObj rowIdx row rest (recInsert obj f.rawName v)

/-- The data-row loop of `readHorizontalItems`: skip blank rows, decode the
rest in order; `rowIdx` is the absolute 0-based row number. -/
def readRows (fields : List Field) : Nat → List (List String) → Except Err (List DataRec)
  | _, [] => .ok []
  | rowIdx, row :: rest =>
    if isEmptyRow row then readRows fields (rowIdx + 1) rest
    else
      match buildObj rowIdx row fields emptyRec with
      | .error e => .error e
      | .ok obj =>
        match readRows fields (rowIdx + 1) rest with
        | .error e => .error e
        | .ok items => .ok (obj :: items)

/-- `readHorizontalItems` from main.go. -/
def readHorizontalItems (rows : List (List String)) (dataStartRow : Nat)
    (fields : List Field) : Except Err (List DataRec) :=
  let start := if dataStartRow = 0 then 1 else dataStartRow
  readRows fields (start - 1) (rows.drop (start - 1))

/-- The aggregate model accumulated across sheets in `main`. -/
structure Agg : Type where
  schemas : List (String × List Field)
  jsonPayload : List (String × List DataRec)
  seenKeys : List (String × String)
  orderedTypeNames : List String

/-- The empty aggregate at the start of `main`. -/
def emptyAgg : Agg :=
  ⟨[], [], [], []⟩

/-- The `jsonKey` a sheet name registers under: exported name, pluralized,
first letter lowered. -/
def derivedKey (sheetName : String) : String :=
  lowerFirst (pluralizeTypeName (exportName sheetName))

/-- The `addSheet` closure of main.go, parametrized by the field-definition
parser it invokes; instantiating the parameter proves independence from it
on paths that never reach field parsing. -/
def addSheetGen
    (parser : List (List String) → Nat → String → Except Err (List Field))
    (exportFlag : String) (agg : Agg) (origin sheetName : String)
    (rows : List (List String)) : Except Err Agg :=
  match detectHeaderSpec rows with
  | .error e => .error e
  | .ok spec =>
    if spec.orientation = .vertical then
      .error (.unsupportedOrientation origin)
    else
      match parser rows spec.defineRow exportFlag with
      | .error e => .error e
      | .ok fields =>
        match readHorizontalItems rows (spec.defineRow + 1) fields with
        | .error e => .error e
        | .ok items =>
          let typeName := exportName sheetName
          if typeName = "" then .error (.emptySheetName origin)
          else
            let jsonKey := lowerFirst (pluralizeTypeName typeName)
            match agg.seenKeys.lookup jsonKey with
            | some prev => .error (.duplicateKey jsonKey origin prev)
            | none =>
              .ok ⟨(typeName, fields) :: agg.schemas,
                   (jsonKey, items) :: agg.jsonPayload,
                   (jsonKey, origin) :: agg.seenKeys,
                   agg.orderedTypeNames ++ [typeName]⟩

/-- `addSheet` as main.go runs it, with the real field parser. -/
def addSheet (exportFlag : String) (agg : Agg) (origin sheetName : String)
    (rows : List (List String)) : Except Err Agg :=
  addSheetGen parseFieldsFromDefineRow exportFlag agg origin sheetName rows

/-- The sheet loop of `main`: fold `addSheet` over the ordered input,
aborting at the first failure. -/
def processSheets (exportFlag : String) :
    Agg → List (String × String × List (List String)) → Except Err Agg
  | agg, [] => .ok agg
  | agg, (origin, sheetName, rows) :: rest =>
    match addSheet exportFlag agg origin sheetName rows with
    | .error e => .error e
    | .ok agg' => processSheets exportFlag agg' rest

/-- Right-trim of newline characters (Go `strings.TrimRight(s, "\n")`). -/
def trimRightNl (s : String) : String :=
  ⟨(s.data.reverse.dropWhile (fun c => c = '\n')).reverse⟩

/-- One root-struct member line of `generateGoBundle`. -/
def goRootLine (typeName : String) : String :=
  let fieldName := pluralizeTypeName typeName
  let jsonKey := lowerFirst fieldName
  "\t" ++ fieldName ++ " []" ++ typeName ++ " `json:\"" ++ jsonKey ++ "\"`\n"

/-- One field line of a per-sheet Go struct in `generateGoBundle`. -/
def goFieldLine (f : Field) : String :=
  "\t" ++ f.name ++ " " ++ f.goType ++ " `json:\"" ++ f.rawName ++ "\"`\n"

/-- One per-sheet struct of `generateGoBundle`. -/
def goTypeDecl (schemas : String → List Field) (typeName : String) : String :=
  "type " ++ typeName ++ " struct \x7b\n" ++
    ((schemas typeName).map goFieldLine).foldl (· ++ ·) "" ++ "\x7d\n\n"

/-- `generateGoBundle` from main.go. It renders each field's `GoType` as
resolved at parse time and has no failure path. -/
def generateGoBundle (pkg rootName : String) (orderedTypeNames : List String)
    (schemas : String → List Field) : Except Err String :=
  let root := "type " ++ rootName ++ " struct \x7b\n" ++
    (orderedTypeNames.map goRootLine).foldl (· ++ ·) "" ++ "\x7d\n\n"
  let body := (orderedTypeNames.map (goTypeDecl schemas)).foldl (· ++ ·) ""
  .ok (trimRightNl ("package " ++ pkg ++ "\n\n" ++ root ++ body) ++ "\n")

/-- One root-class member of `generateCSBundle`. -/
def csRootMember (typeName : String) : String :=
  let fieldName := pluralizeTypeName typeName
  let jsonKey := lowerFirst fieldName
  "    [JsonPropertyName(\"" ++ jsonKey ++ "\")]\n    public List<" ++ typeName ++
    "> " ++ fieldName ++ " \x7b get; set; \x7d\n\n"

/-- The field lines of one C# class, re-resolving every raw type through
`mapCSType` and failing on an absent type. -/
def csFieldLines : List Field → Except Err String
  | [] => .ok ""
  | f :: rest =>
    match mapCSType f.rawType with
    | none => .error (.unsupportedType f.rawType)
    | some csType =>
      match csFieldLines rest with
      | .error e => .error e
      | .ok tail =>
        .ok ("    [JsonPropertyName(\"" ++ f.rawName ++ "\")]\n    public " ++
          csType ++ " " ++ f.name ++ " \x7b get; set; \x7d\n\n" ++ tail)

/-- The per-sheet classes of `generateCSBundle`. -/
def csTypeDecls (schemas : String → List Field) : List String → Except Err String
  | [] => .ok ""
  | typeName :: rest =>
    match csFieldLines (schemas typeName) with
    | .error e => .error e
    | .ok fieldsS =>
      match csTypeDecls schemas rest with
      | .error e => .error e
      | .ok tail =>
        .ok ("public class " ++ typeName ++ "\n\x7b\n" ++ fieldsS ++ "\x7d\n\n" ++ tail)

/-- `generateCSBundle` from main.go. -/
def generateCSBundle (rootName : String) (orderedTypeNames : List String)
    (schemas : String → List Field) : Except Err String :=
  let header := "using System.Collections.Generic;\nusing System.Text.Json.Serialization;\n\n"
  let root := "public class " ++ rootName ++ "\n\x7b\n" ++
    (orderedTypeNames.map csRootMember).foldl (· ++ ·) "" ++ "\x7d\n\n"
  match csTypeDecls schemas orderedTypeNames with
  | .error e => .error e
  | .ok body => .ok (trimRightNl (header ++ root ++ body) ++ "\n")

/-- The field lines of one TypeScript interface, re-resolving every raw type
through `mapTSType` and failing on an absent type. -/
def tsFieldLines : List Field → Except Err String
  | [] => .ok ""
  | f :: rest =>
    match mapTSType f.rawType with
    | none => .error (.unsupportedType f.rawType)
    | some tsType =>
      match tsFieldLines rest with
      | .error e => .error e
      | .ok tail => .ok ("  " ++ f.rawName ++ ": " ++ tsType ++ ";\n" ++ tail)

/-- The per-sheet interfaces of `generateTSBundle`. -/
def tsTypeDecls (schemas : String → List Field) : List String → Except Err String
  | [] => .ok ""
  | typeName :: rest =>
    match tsFieldLines (schemas typeName) with
    | .error e => .error e
    | .ok fieldsS =>
      match tsTypeDecls schemas rest with
      | .error e => .error e
      | .ok tail =>
        .ok ("export interface " ++ typeName ++ " \x7b\n" ++ fieldsS ++ "\x7d\n\n" ++ tail)

/-- One root-interface member of `generateTSBundle`. -/
def tsRootMember (typeName : String) : String :=
  "  " ++ lowerFirst (pluralizeTypeName typeName) ++ ": " ++ typeName ++ "[];\n"

/-- `generateTSBundle` from main.go. -/
def generateTSBundle (rootName : String) (orderedTypeNames : List String)
    (schemas : String → List Field) : Except Err String :=
  let root := "export interface " ++ rootName ++ " \x7b\n" ++
    (orderedTypeNames.map tsRootMember).foldl (· ++ ·) "" ++ "\x7d\n"
  match tsTypeDecls schemas orderedTypeNames with
  | .error e => .error e
  | .ok body => .ok (body ++ root)

/-- `Char.ofNat` at a valid scalar value decodes back to that value. -/
theorem toNat_ofNat_valid {n : Nat} (h : n.isValidChar) : (Char.ofNat n).toNat = n := by
  rw [Char.ofNat, dif_pos h]
  rfl

/-- Characters with equal code points are equal. -/
theorem char_eq_of_toNat {c d : Char} (h : c.toNat = d.toNat) : c = d := by
  rcases c with ⟨⟨cv⟩, hc⟩
  rcases d with ⟨⟨dv⟩, hd⟩
  simp [Char.toNat, UInt32.toNat] at h
  have hbv : cv = dv := BitVec.eq_of_toNat_eq h
  subst hbv
  rfl

/-- Code point of `upperChar`. -/
theorem upperChar_toNat (c : Char) :
    (upperChar c).toNat =
      if 97 ≤ c.toNat ∧ c.toNat ≤ 122 then c.toNat - 32 else c.toNat := by
  by_cases h : 97 ≤ c.toNat ∧ c.toNat ≤ 122
  · rw [upperChar, if_pos h, if_pos h]
    exact toNat_ofNat_valid (Or.inl (by omega))
  · rw [upperChar, if_neg h, if_neg h]

/-- Code point of `lowerChar`. -/
theorem lowerChar_toNat (c : Char) :
    (lowerChar c).toNat =
      if 65 ≤ c.toNat ∧ c.toNat ≤ 90 then c.toNat + 32 else c.toNat := by
  by_cases h : 65 ≤ c.toNat ∧ c.toNat ≤ 90
  · rw [lowerChar, if_pos h, if_pos h]
    exact toNat_ofNat_valid (Or.inl (by omega))
  · rw [lowerChar, if_neg h, if_neg h]

/-- Upper-casing a character twice equals upper-casing it once. -/
theorem upperChar_idem (c : Char) : upperChar (upperChar c) = upperChar c := by
  by_cases h : 97 ≤ c.toNat ∧ c.toNat ≤ 122
  · have ht : (upperChar c).toNat = c.toNat - 32 := by
      rw [upperChar_toNat, if_pos h]
    have hcond : ¬(97 ≤ (upperChar c).toNat ∧ (upperChar c).toNat ≤ 122) := by
      rw [ht]
      omega
    nth_rewrite 1 [upperChar]
    rw [if_neg hcond]
  · have hcc : upperChar c = c := by rw [upperChar, if_neg h]
    rw [hcc]
    exact hcc

/-- Upper-casing preserves the non-separator property. -/
theorem isSep_upperChar (c : Char) (h : isSep c = false) : isSep (upperChar c) = false := by
  by_cases hc : 97 ≤ c.toNat ∧ c.toNat ≤ 122
  · have ht : (upperChar c).toNat = c.toNat - 32 := by
      rw [upperChar_toNat, if_pos hc]
    simp only [isSep, Bool.or_eq_false_iff, decide_eq_false_iff_not]
    constructor
    · intro he
      have := congrArg Char.toNat he
      rw [ht, show ('_' : Char).toNat = 95 from rfl] at this
      omega
    · intro he
      have := congrArg Char.toNat he
      rw [ht, show ('-' : Char).toNat = 45 from rfl] at this
      omega
  · have hcc : upperChar c = c := by rw [upperChar, if_neg hc]
    rw [hcc]
    exact h

/-- Lower-casing preserves the non-separator property. -/
theorem isSep_lowerChar (c : Char) (h : isSep c = false) : isSep (lowerChar c) = false := by
  by_cases hc : 65 ≤ c.toNat ∧ c.toNat ≤ 90
  · have ht : (lowerChar c).toNat = c.toNat + 32 := by
      rw [lowerChar_toNat, if_pos hc]
    simp only [isSep, Bool.or_eq_false_iff, decide_eq_false_iff_not]
    constructor
    · intro he
      have := congrArg Char.toNat he
      rw [ht, show ('_' : Char).toNat = 95 from rfl] at this
      omega
    · intro he
      have := congrArg Char.toNat he
      rw [ht, show ('-' : Char).toNat = 45 from rfl] at this
      omega
  · have hcc : lowerChar c = c := by rw [lowerChar, if_neg hc]
    rw [hcc]
    exact h

/-- Every part produced by the separator split is nonempty and free of
separator characters. -/
theorem fieldsFuncL_mem (l : List Char) :
    ∀ p ∈ fieldsFuncL l, p ≠ [] ∧ ∀ c ∈ p, isSep c = false := by
  induction l using fieldsFuncL.induct with
  | case1 => simp [fieldsFuncL]
  | case2 c rest hsep ih =>
    rw [fieldsFuncL, if_pos hsep]
    exact ih
  | case3 c rest hsep ih =>
    rw [fieldsFuncL, if_neg hsep]
    intro p hp
    rcases List.mem_cons.mp hp with hp | hp
    · subst hp
      refine ⟨by simp, ?_⟩
      intro d hd
      rcases List.mem_cons.mp hd with hd | hd
      · subst hd
        simpa using hsep
      · have := List.mem_takeWhile_imp hd
        simpa using this
    · exact ih p hp

/-- `capPart` keeps a part free of separator characters. -/
theorem capPart_no_sep (p : List Char) (h : ∀ c ∈ p, isSep c = false) :
    ∀ c ∈ capPart p, isSep c = false := by
  match p with
  | [] => simp [capPart]
  | a :: rest =>
    intro d hd
    rw [capPart] at hd
    rcases List.mem_cons.mp hd with hd | hd
    · subst hd
      exact isSep_upperChar a (h a (by simp))
    · obtain ⟨e, he, rfl⟩ := List.mem_map.mp hd
      exact isSep_lowerChar e (h e (by simp [he]))

/-- The exported-name transform never outputs separator characters. -/
theorem exportNameL_no_sep (l : List Char) : ∀ c ∈ exportNameL l, isSep c = false := by
  cases l with
  | nil => simp [exportNameL]
  | cons a rest =>
    rw [exportNameL]
    rw [if_neg (by simp)]
    by_cases hany : (a :: rest).any isSep = true
    · rw [if_pos hany]
      intro d hd
      obtain ⟨part, hpart, hdpart⟩ := List.mem_flatten.mp hd
      obtain ⟨p, hp, rfl⟩ := List.mem_map.mp hpart
      exact capPart_no_sep p ((fieldsFuncL_mem _ p hp).2) d hdpart
    · rw [if_neg hany]
      have hall : ∀ c ∈ a :: rest, isSep c = false := by
        intro c hc
        by_contra hbad
        exact hany (List.any_eq_true.mpr ⟨c, hc, by simpa using hbad⟩)
      intro d hd
      rcases List.mem_cons.mp hd with hd | hd
      · subst hd
        exact isSep_upperChar a (hall a (by simp))
      · exact hall d (by simp [hd])

/-- The first character of a nonempty exported name is fixed by
upper-casing. -/
theorem exportNameL_head (l : List Char) (c : Char) (rest : List Char)
    (h : exportNameL l = c :: rest) : upperChar c = c := by
  cases l with
  | nil => simp [exportNameL] at h
  | cons a tail =>
    rw [exportNameL, if_neg (by simp)] at h
    by_cases hany : (a :: tail).any isSep = true
    · rw [if_pos hany] at h
      obtain ⟨parts, hparts⟩ : ∃ parts, fieldsFuncL (a :: tail) = parts := ⟨_, rfl⟩
      rw [hparts] at h
      cases parts with
      | nil => simp at h
      | cons p ps =>
        have hne := (fieldsFuncL_mem (a :: tail) p (by rw [hparts]; simp)).1
        cases p with
        | nil => exact absurd rfl hne
        | cons pc prest =>
          rw [List.map_cons, capPart, List.flatten_cons, List.cons_append,
            List.cons.injEq] at h
          rw [← h.1]
          exact upperChar_idem pc
    · rw [if_neg hany] at h
      rw [List.cons.injEq] at h
      rw [← h.1]
      exact upperChar_idem a

/-- The exported-name transform is idempotent at the character-list level. -/
theorem exportNameL_idem (l : List Char) : exportNameL (exportNameL l) = exportNameL l := by
  cases hE : exportNameL l with
  | nil => decide
  | cons c rest =>
    have hns : ∀ d ∈ exportNameL l, isSep d = false := exportNameL_no_sep l
    have hhead : upperChar c = c := exportNameL_head l c rest hE
    have hany : ¬((c :: rest).any isSep = true) := by
      intro hA
      obtain ⟨x, hx, hsx⟩ := List.any_eq_true.mp hA
      have := hns x (by rw [hE]; exact hx)
      rw [this] at hsx
      cases hsx
    rw [exportNameL, if_neg (by simp), if_neg hany]
    show upperChar c :: rest = c :: rest
    rw [hhead]

/-- C9: the exported-name transform is idempotent: applying `exportName` to
its own output returns that output unchanged, for every input string. -/
theorem exportName_idem (s : String) : exportName (exportName s) = exportName s := by
  simp only [exportName]
  exact congrArg String.mk (exportNameL_idem s.data)

/-- A field produced by the cell loop records the column it was parsed at. -/
theorem cellStep_col (flag : String) (dr i : Nat) (cell : String) (f : Field)
    (h : cellStep flag dr i cell = .ok (some f)) : f.col = i := by
  unfold cellStep at h
  simp only [] at h
  repeat' split at h
  all_goals (try (cases h))
  all_goals rfl

/-- Membership in the index-pairing of a row. -/
theorem withIdx_mem (l : List String) :
    ∀ (k i : Nat) (c : String),
      (i, c) ∈ withIdx k l ↔ ∃ j, i = k + j ∧ l[j]? = some c := by
  induction l with
  | nil => intro k i c; simp [withIdx]
  | cons a rest ih =>
    intro k i c
    simp only [withIdx]
    constructor
    · intro hp
      rcases List.mem_cons.mp hp with hp | hp
      · obtain ⟨h1, h2⟩ := Prod.mk.injEq .. ▸ hp
        exact ⟨0, by omega, by simp [h2]⟩
      · obtain ⟨j, hj1, hj2⟩ := (ih (k + 1) i c).mp hp
        exact ⟨j + 1, by omega, by simpa using hj2⟩
    · rintro ⟨j, hj1, hj2⟩
      cases j with
      | zero =>
        simp at hj2
        exact List.mem_cons.mpr (Or.inl (by simp [hj1, hj2]))
      | succ j =>
        refine List.mem_cons.mpr (Or.inr ((ih (k + 1) i c).mpr ⟨j, by omega, ?_⟩))
        simpa using hj2

/-- A successful cell loop ran every cell's step successfully. -/
theorem parseCells_all_ok (flag : String) (dr : Nat) :
    ∀ (cells : List (Nat × String)) (fs : List Field),
      parseCells flag dr cells = .ok fs →
      ∀ p ∈ cells, (cellStep flag dr p.1 p.2).isOk = true := by
  intro cells
  induction cells with
  | nil => simp
  | cons p rest ih =>
    intro fs h q hq
    obtain ⟨i, c⟩ := p
    rw [parseCells] at h
    rcases List.mem_cons.mp hq with hq | hq
    · subst hq
      cases hs : cellStep flag dr i c with
      | error e => rw [hs] at h; cases h
      | ok r => rfl
    · cases hs : cellStep flag dr i c with
      | error e => rw [hs] at h; cases h
      | ok r =>
        rw [hs] at h
        cases r with
        | none => exact ih fs h q hq
        | some f =>
          cases hrest : parseCells flag dr rest with
          | error e => rw [hrest] at h; cases h
          | ok fs' => exact ih fs' hrest q hq

/-- If every cell's step succeeds, the cell loop succeeds. -/
theorem parseCells_ok_of_all (flag : String) (dr : Nat) :
    ∀ cells : List (Nat × String),
      (∀ p ∈ cells, (cellStep flag dr p.1 p.2).isOk = true) →
      (parseCells flag dr cells).isOk = true := by
  intro cells
  induction cells with
  | nil => intro _; rfl
  | cons p rest ih =>
    intro hall
    obtain ⟨i, c⟩ := p
    have hh := hall (i, c) (by simp)
    have ht := ih (fun q hq => hall q (by simp [hq]))
    rw [parseCells]
    cases hs : cellStep flag dr i c with
    | error e => rw [hs] at hh; exact Bool.noConfusion hh
    | ok r =>
      cases r with
      | none => exact ht
      | some f =>
        cases hrest : parseCells flag dr rest with
        | error e => rw [hrest] at ht; exact Bool.noConfusion ht
        | ok fs' => rfl

/-- A field produced by some cell's step is in the loop's output. -/
theorem parseCells_mem_of_step (flag : String) (dr : Nat) :
    ∀ (cells : List (Nat × String)) (fs : List Field) (i : Nat) (c : String) (f : Field),
      parseCells flag dr cells = .ok fs → (i, c) ∈ cells →
      cellStep flag dr i c = .ok (some f) → f ∈ fs := by
  intro cells
  induction cells with
  | nil => simp
  | cons p rest ih =>
    intro fs i c f h hq hs
    obtain ⟨j, d⟩ := p
    rw [parseCells] at h
    rcases List.mem_cons.mp hq with hq | hq
    · obtain ⟨h1, h2⟩ := Prod.mk.injEq .. ▸ hq
      subst h1
      subst h2
      rw [hs] at h
      cases hrest : parseCells flag dr rest with
      | error e => rw [hrest] at h; cases h
      | ok fs' =>
        rw [hrest] at h
        cases h
        simp
    · cases hd : cellStep flag dr j d with
      | error e => rw [hd] at h; cases h
      | ok r =>
        rw [hd] at h
        cases r with
        | none => exact ih fs i c f h hq hs
        | some g =>
          cases hrest : parseCells flag dr rest with
          | error e => rw [hrest] at h; cases h
          | ok fs' =>
            rw [hrest] at h
            cases h
            exact List.mem_cons.mpr (Or.inr (ih fs' i c f hrest hq hs))

/-- Every field of the loop's output was produced by some cell's step. -/
theorem parseCells_mem_inv (flag : String) (dr : Nat) :
    ∀ (cells : List (Nat × String)) (fs : List Field) (f : Field),
      parseCells flag dr cells = .ok fs → f ∈ fs →
      ∃ p ∈ cells, cellStep flag dr p.1 p.2 = .ok (some f) := by
  intro cells
  induction cells with
  | nil =>
    intro fs f h hf
    rw [parseCells] at h
    cases h
    cases hf
  | cons p rest ih =>
    intro fs f h hf
    obtain ⟨j, d⟩ := p
    rw [parseCells] at h
    cases hd : cellStep flag dr j d with
    | error e => rw [hd] at h; cases h
    | ok r =>
      rw [hd] at h
      cases r with
      | none =>
        obtain ⟨q, hq, hqs⟩ := ih fs f h hf
        exact ⟨q, by simp [hq], hqs⟩
      | some g =>
        cases hrest : parseCells flag dr rest with
        | error e => rw [hrest] at h; cases h
        | ok fs' =>
          rw [hrest] at h
          cases h
          rcases List.mem_cons.mp hf with hf | hf
          · subst hf
            exact ⟨(j, d), by simp, hd⟩
          · obtain ⟨q, hq, hqs⟩ := ih fs' f hrest hf
            exact ⟨q, by simp [hq], hqs⟩

/-- Fields parsed from an indexed row have strictly increasing columns, all
at least the starting index. -/
theorem parseCells_cols (flag : String) (dr : Nat) :
    ∀ (l : List String) (k : Nat) (fs : List Field),
      parseCells flag dr (withIdx k l) = .ok fs →
      (∀ f ∈ fs, k ≤ f.col) ∧ List.Pairwise (fun a b => a.col < b.col) fs := by
  intro l
  induction l with
  | nil =>
    intro k fs h
    rw [withIdx, parseCells] at h
    cases h
    exact ⟨by simp, by simp⟩
  | cons a rest ih =>
    intro k fs h
    rw [withIdx, parseCells] at h
    cases hs : cellStep flag dr k a with
    | error e => rw [hs] at h; cases h
    | ok r =>
      rw [hs] at h
      cases r with
      | none =>
        obtain ⟨hge, hpw⟩ := ih (k + 1) fs h
        exact ⟨fun f hf => Nat.le_of_succ_le (hge f hf), hpw⟩
      | some f =>
        cases hrest : parseCells flag dr (withIdx (k + 1) rest) with
        | error e => rw [hrest] at h; cases h
        | ok fs' =>
          rw [hrest] at h
          cases h
          obtain ⟨hge, hpw⟩ := ih (k + 1) fs' hrest
          have hcol : f.col = k := cellStep_col flag dr k a f hs
          refine ⟨?_, ?_⟩
          · intro g hg
            rcases List.mem_cons.mp hg with hg | hg
            · subst hg; omega
            · exact Nat.le_of_succ_le (hge g hg)
          · exact List.Pairwise.cons (fun g hg => by have := hge g hg; omega) hpw

/-- Successful field parsing is exactly a successful, nonempty cell loop over
the indexed define row. -/
theorem parseFields_ok_inv (rows : List (List String)) (dr : Nat) (flag : String)
    (fs : List Field) (h : parseFieldsFromDefineRow rows dr flag = .ok fs) :
    parseCells flag dr (withIdx 0 (rows.getD (dr - 1) [])) = .ok fs ∧ fs ≠ [] := by
  rw [parseFieldsFromDefineRow] at h
  split at h
  · cases h
  · cases hc : parseCells flag dr (withIdx 0 (rows.getD (dr - 1) [])) with
    | error e => rw [hc] at h; cases h
    | ok fs0 =>
      rw [hc] at h
      have h' : (if fs0.isEmpty = true then (Except.error Err.emptySchema : Except Err (List Field))
          else Except.ok fs0) = Except.ok fs := h
      by_cases he : fs0.isEmpty = true
      · rw [if_pos he] at h'; cases h'
      · rw [if_neg he] at h'
        cases h'
        exact ⟨rfl, fun h0 => he (by rw [h0]; rfl)⟩

/-- A bad define-row cell makes its step fail with the invalid-field error
naming the trimmed cell and the row. -/
theorem bad_cell_step (flag : String) (dr i : Nat) (cell : String)
    (hbad : isBadCell cell = true) :
    cellStep flag dr i cell = .error (.invalidFieldDef (goTrimSpace cell) dr) := by
  rw [isBadCell] at hbad
  simp only [Bool.and_eq_true, Bool.not_eq_true', decide_eq_false_iff_not,
    Bool.or_eq_false_iff, Option.isNone_iff_eq_none] at hbad
  obtain ⟨⟨h1, h2a, h2b⟩, h3⟩ := hbad
  unfold cellStep
  simp only []
  rw [if_neg h1, if_neg (by rw [h2a, h2b]; simp), h3]

/-- C5: every non-blank define-row cell without a case-insensitive
`#comment`/`#common` substring and without a `fieldRe` match makes the
field-definition parser fail with the invalid-field-definition error naming
the cell and row; consequently no successful parse ever contains (or
silently drops) such a cell. -/
theorem invalid_field_def_rejected :
    (∀ (flag : String) (dr i : Nat) (cell : String), isBadCell cell = true →
      cellStep flag dr i cell = .error (.invalidFieldDef (goTrimSpace cell) dr)) ∧
    (∀ (rows : List (List String)) (dr : Nat) (flag : String) (fs : List Field),
      parseFieldsFromDefineRow rows dr flag = .ok fs →
      ∀ cell ∈ rows.getD (dr - 1) [], isBadCell cell = false) := by
  constructor
  · exact bad_cell_step
  · intro rows dr flag fs h cell hcell
    by_contra hbad'
    have hbad : isBadCell cell = true := by
      cases hcb : isBadCell cell
      · exact absurd hcb hbad'
      · rfl
    obtain ⟨hpc, _⟩ := parseFields_ok_inv rows dr flag fs h
    obtain ⟨j, hj⟩ := List.mem_iff_getElem?.mp hcell
    have hmem : (j, cell) ∈ withIdx 0 (rows.getD (dr - 1) []) :=
      (withIdx_mem _ 0 j cell).mpr ⟨j, by omega, hj⟩
    have hok : (cellStep flag dr j cell).isOk = true :=
      parseCells_all_ok flag dr _ fs hpc (j, cell) hmem
    rw [bad_cell_step flag dr j cell hbad] at hok
    exact Bool.noConfusion hok

/-- Witness for C5: `cid-int` is rejected with the invalid-field error, and
a successful parse certifies its define row holds no bad cell. -/
theorem invalid_field_def_rejected_witness :
    cellStep "" 1 0 "cid-int" = .error (.invalidFieldDef "cid-int" 1) ∧
    isBadCell "x#int" = false := by
  constructor
  · exact (invalid_field_def_rejected.1 "" 1 0 "cid-int" (by decide)).trans (by decide)
  · exact invalid_field_def_rejected.2 [["x#int"]] 1 ""
      [⟨"x", "X", "int", "int", 0, .all⟩] (by decide) "x#int" (by decide)

/-- In-range indexing with a default agrees with optional indexing. -/
theorem getD_at_lt (l : List String) (i : Nat) (h : i < l.length) :
    l[i]? = some (l.getD i "") := by
  rw [List.getElem?_eq_getElem h, List.getD_eq_getElem?_getD, List.getElem?_eq_getElem h]
  rfl

/-- Full characterization of a cell step once the cell trims to a `fieldRe`
match with a non-comment, mappable type: only the visibility filter decides
between keeping the field, skipping it, and the invalid-flag error. -/
theorem cellStep_match (flag : String) (dr i : Nat) (cell : String)
    (m : FieldMatch) (g : String)
    (hm : fieldReMatch (goTrimSpace cell) = some m)
    (hc1 : goContains (goToLower (goTrimSpace cell)) "#comment" = false)
    (hc2 : goContains (goToLower (goTrimSpace cell)) "#common" = false)
    (hty : ¬(goToLower m.ftype = "comment" ∨ goToLower m.ftype = "common"))
    (hg : mapGoType m.ftype = some g) :
    cellStep flag dr i cell =
      (if flag = "" then
        .ok (some ⟨m.name, exportName m.name, m.ftype, g, i, flagOf m.flagCh⟩)
      else if flag = "server" then
        (if flagOf m.flagCh = .client then .ok none
         else .ok (some ⟨m.name, exportName m.name, m.ftype, g, i, flagOf m.flagCh⟩))
      else if flag = "client" then
        (if flagOf m.flagCh = .server then .ok none
         else .ok (some ⟨m.name, exportName m.name, m.ftype, g, i, flagOf m.flagCh⟩))
      else .error (.invalidFlag flag)) := by
  have hne : ¬(goTrimSpace cell = "") := by
    intro h0
    rw [h0, show fieldReMatch "" = none from by decide] at hm
    cases hm
  unfold cellStep
  simp only []
  rw [if_neg hne, if_neg (by rw [hc1, hc2]; simp)]
  simp only [hm]
  rw [if_neg hty]
  simp only [hg]

/-- A field kept under some visibility filter is kept under no filter. -/
theorem cellStep_keep (flag : String) (dr i : Nat) (cell : String) (f : Field)
    (h : cellStep flag dr i cell = .ok (some f)) :
    cellStep "" dr i cell = .ok (some f) := by
  by_cases h0 : goTrimSpace cell = ""
  · unfold cellStep at h
    simp only [] at h
    rw [if_pos h0] at h
    exact absurd h (by simp)
  · by_cases hcc : (goContains (goToLower (goTrimSpace cell)) "#comment" ||
        goContains (goToLower (goTrimSpace cell)) "#common") = true
    · unfold cellStep at h
      simp only [] at h
      rw [if_neg h0, if_pos hcc] at h
      exact absurd h (by simp)
    · obtain ⟨hc1, hc2⟩ :
          goContains (goToLower (goTrimSpace cell)) "#comment" = false ∧
          goContains (goToLower (goTrimSpace cell)) "#common" = false :=
        Bool.or_eq_false_iff.mp (Bool.eq_false_iff.mpr hcc)
      cases hm : fieldReMatch (goTrimSpace cell) with
      | none =>
        unfold cellStep at h
        simp only [] at h
        rw [if_neg h0, if_neg hcc] at h
        simp only [hm] at h
        exact absurd h (by simp)
      | some m =>
        by_cases hty : goToLower m.ftype = "comment" ∨ goToLower m.ftype = "common"
        · unfold cellStep at h
          simp only [] at h
          rw [if_neg h0, if_neg hcc] at h
          simp only [hm] at h
          rw [if_pos hty] at h
          exact absurd h (by simp)
        · cases hg : mapGoType m.ftype with
          | none =>
            unfold cellStep at h
            simp only [] at h
            rw [if_neg h0, if_neg hcc] at h
            simp only [hm] at h
            rw [if_neg hty] at h
            simp only [hg] at h
            repeat' split at h
            all_goals simp at h
          | some g =>
            rw [cellStep_match flag dr i cell m g hm hc1 hc2 hty hg] at h
            have hres : f = ⟨m.name, exportName m.name, m.ftype, g, i, flagOf m.flagCh⟩ := by
              repeat' split at h
              all_goals (first | (cases h; rfl) | simp at h)
            rw [hres]
            exact (cellStep_match "" dr i cell m g hm hc1 hc2 hty hg).trans (by rw [if_pos rfl])

/-- A field produced by the in-range cell at column `i` is in a successful
parse's output. -/
theorem parseFields_mem_of_cell (rows : List (List String)) (dr : Nat)
    (flag : String) (fs : List Field) (i : Nat) (f : Field)
    (hlt : i < (rows.getD (dr - 1) []).length)
    (hs : cellStep flag dr i ((rows.getD (dr - 1) []).getD i "") = .ok (some f))
    (h : parseFieldsFromDefineRow rows dr flag = .ok fs) : f ∈ fs := by
  obtain ⟨hpc, _⟩ := parseFields_ok_inv rows dr flag fs h
  exact parseCells_mem_of_step flag dr _ fs i _ f hpc
    ((withIdx_mem _ 0 i _).mpr ⟨i, by omega, getD_at_lt _ i hlt⟩) hs

/-- When the in-range cell at column `i` is skipped, no field of a
successful parse sits at column `i`. -/
theorem parseFields_not_col (rows : List (List String)) (dr : Nat)
    (flag : String) (fs : List Field) (i : Nat)
    (hlt : i < (rows.getD (dr - 1) []).length)
    (hs : cellStep flag dr i ((rows.getD (dr - 1) []).getD i "") = .ok none)
    (h : parseFieldsFromDefineRow rows dr flag = .ok fs) :
    ∀ f ∈ fs, f.col ≠ i := by
  intro f hf hcol
  obtain ⟨hpc, _⟩ := parseFields_ok_inv rows dr flag fs h
  obtain ⟨⟨j, d⟩, hmem, hstep⟩ := parseCells_mem_inv flag dr _ fs f hpc hf
  have hji : j = i := by
    have := cellStep_col flag dr j d f hstep
    omega
  subst hji
  obtain ⟨j', hj'1, hj'2⟩ := (withIdx_mem _ 0 j d).mp hmem
  have hj'j : j' = j := by omega
  subst hj'j
  rw [getD_at_lt _ j' hlt] at hj'2
  have hd : d = (rows.getD (dr - 1) []).getD j' "" := by
    cases hj'2
    rfl
  rw [hd] at hstep
  rw [hs] at hstep
  cases hstep

/-- C6: a field defined `name#int,s` (ServerOnly) appears in the parsed field
list under the absent filter and the `server` filter and is absent under the
`client` filter; symmetrically the `server` filter drops a `name#int,c`
(ClientOnly) field; and any field kept under some filter is kept when no
filter is given. -/
theorem visibility_filtering :
    (∀ (rows : List (List String)) (dr i : Nat) (n : String) (fs : List Field),
      i < (rows.getD (dr - 1) []).length →
      fieldReMatch (goTrimSpace ((rows.getD (dr - 1) []).getD i "")) =
        some ⟨n, "int", some 's'⟩ →
      goContains (goToLower (goTrimSpace ((rows.getD (dr - 1) []).getD i ""))) "#comment" = false →
      goContains (goToLower (goTrimSpace ((rows.getD (dr - 1) []).getD i ""))) "#common" = false →
      ((parseFieldsFromDefineRow rows dr "" = .ok fs →
          ∃ f ∈ fs, f.col = i ∧ f.rawName = n ∧ f.flag = .server) ∧
       (parseFieldsFromDefineRow rows dr "server" = .ok fs →
          ∃ f ∈ fs, f.col = i ∧ f.rawName = n ∧ f.flag = .server) ∧
       (parseFieldsFromDefineRow rows dr "client" = .ok fs →
          ∀ f ∈ fs, f.col ≠ i))) ∧
    (∀ (rows : List (List String)) (dr i : Nat) (n : String) (fs : List Field),
      i < (rows.getD (dr - 1) []).length →
      fieldReMatch (goTrimSpace ((rows.getD (dr - 1) []).getD i "")) =
        some ⟨n, "int", some 'c'⟩ →
      goContains (goToLower (goTrimSpace ((rows.getD (dr - 1) []).getD i ""))) "#comment" = false →
      goContains (goToLower (goTrimSpace ((rows.getD (dr - 1) []).getD i ""))) "#common" = false →
      parseFieldsFromDefineRow rows dr "server" = .ok fs →
      ∀ f ∈ fs, f.col ≠ i) ∧
    (∀ (flag : String) (dr i : Nat) (cell : String) (f : Field),
      cellStep flag dr i cell = .ok (some f) → cellStep "" dr i cell = .ok (some f)) := by
  refine ⟨?_, ?_, cellStep_keep⟩
  · intro rows dr i n fs hlt hm hc1 hc2
    have hchar := fun flag =>
      cellStep_match flag dr i ((rows.getD (dr - 1) []).getD i "") ⟨n, "int", some 's'⟩
        "int" hm hc1 hc2
        (by show ¬(goToLower "int" = "comment" ∨ goToLower "int" = "common"); decide)
        (by show mapGoType "int" = some "int"; decide)
    refine ⟨fun h => ?_, fun h => ?_, fun h => ?_⟩
    · have hs := (hchar "").trans (by rw [if_pos rfl])
      exact ⟨_, parseFields_mem_of_cell rows dr "" fs i _ hlt hs h, rfl, rfl, rfl⟩
    · have hs := (hchar "server").trans
        (by rw [if_neg (by decide), if_pos rfl,
          if_neg (by show ¬flagOf (some 's') = FieldFlag.client; decide)])
      exact ⟨_, parseFields_mem_of_cell rows dr "server" fs i _ hlt hs h, rfl, rfl, rfl⟩
    · have hs := (hchar "client").trans
        (by rw [if_neg (by decide), if_neg (by decide), if_pos rfl,
          if_pos (by show flagOf (some 's') = FieldFlag.server; decide)])
      exact parseFields_not_col rows dr "client" fs i hlt hs h
  · intro rows dr i n fs hlt hm hc1 hc2 h
    have hchar :=
      cellStep_match "server" dr i ((rows.getD (dr - 1) []).getD i "") ⟨n, "int", some 'c'⟩
        "int" hm hc1 hc2
        (by show ¬(goToLower "int" = "comment" ∨ goToLower "int" = "common"); decide)
        (by show mapGoType "int" = some "int"; decide)
    have hs := hchar.trans (by rw [if_neg (by decide), if_pos rfl,
      if_pos (by show flagOf (some 'c') = FieldFlag.client; decide)])
    exact parseFields_not_col rows dr "server" fs i hlt hs h

/-- Witness for C6: on the define row `a#int,s`, `b#int` the ServerOnly
field is present without a filter and under `server`, absent under `client`;
a ClientOnly field is dropped under `server`; a kept field survives removing
the filter. -/
theorem visibility_filtering_witness :
    (∃ f ∈ [(⟨"a", "A", "int", "int", 0, .server⟩ : Field),
            ⟨"b", "B", "int", "int", 1, .all⟩],
       f.col = 0 ∧ f.rawName = "a" ∧ f.flag = .server) ∧
    (∀ f ∈ [(⟨"b", "B", "int", "int", 1, .all⟩ : Field)], f.col ≠ 0) ∧
    (∀ f ∈ [(⟨"b", "B", "int", "int", 1, .all⟩ : Field)], f.col ≠ 0) ∧
    cellStep "" 1 7 "a#int,s" = .ok (some ⟨"a", "A", "int", "int", 7, .server⟩) := by
  refine ⟨?_, ?_, ?_, ?_⟩
  · exact (visibility_filtering.1 [["a#int,s", "b#int"]] 1 0 "a"
      [⟨"a", "A", "int", "int", 0, .server⟩, ⟨"b", "B", "int", "int", 1, .all⟩]
      (by decide) (by decide) (by decide) (by decide)).1 (by decide)
  · exact (visibility_filtering.1 [["a#int,s", "b#int"]] 1 0 "a"
      [⟨"b", "B", "int", "int", 1, .all⟩]
      (by decide) (by decide) (by decide) (by decide)).2.2 (by decide)
  · exact visibility_filtering.2.1 [["a#int,c", "b#int"]] 1 0 "a"
      [⟨"b", "B", "int", "int", 1, .all⟩]
      (by decide) (by decide) (by decide) (by decide) (by decide)
  · exact visibility_filtering.2.2 "server" 1 7 "a#int,s"
      ⟨"a", "A", "int", "int", 7, .server⟩ (by decide)

/-- Fields whose raw names all differ from `name` leave the record entry at
`name` unchanged. -/
theorem buildObj_pres (ri : Nat) (row : List String) :
    ∀ (fields : List Field) (obj r : DataRec) (name : String),
      buildObj ri row fields obj = .ok r →
      (∀ g ∈ fields, g.rawName ≠ name) → r name = obj name := by
  intro fields
  induction fields with
  | nil =>
    intro obj r name h _
    rw [buildObj] at h
    cases h
    rfl
  | cons f rest ih =>
    intro obj r name h hno
    rw [buildObj] at h
    cases hp : parseCellValue f.rawType (cellAt row f.col) with
    | error e => rw [hp] at h; cases h
    | ok v =>
      rw [hp] at h
      rw [ih (recInsert obj f.rawName v) r name h (fun g hg => hno g (by simp [hg])),
        recInsert, if_neg (fun hh => hno f (by simp) hh.symm)]

/-- The record entry at a field's raw name is the decoded value of the last
field carrying that name. -/
theorem buildObj_last (ri : Nat) (row : List String) :
    ∀ (l1 : List Field) (f : Field) (l2 : List Field) (obj r : DataRec),
      buildObj ri row (l1 ++ f :: l2) obj = .ok r →
      (∀ g ∈ l2, g.rawName ≠ f.rawName) →
      ∃ v, parseCellValue f.rawType (cellAt row f.col) = .ok v ∧
        r f.rawName = some v := by
  intro l1
  induction l1 with
  | nil =>
    intro f l2 obj r h hlast
    rw [List.nil_append, buildObj] at h
    cases hp : parseCellValue f.rawType (cellAt row f.col) with
    | error e => rw [hp] at h; cases h
    | ok v =>
      rw [hp] at h
      refine ⟨v, rfl, ?_⟩
      rw [buildObj_pres ri row l2 _ r f.rawName h hlast, recInsert, if_pos rfl]
  | cons g l1' ih =>
    intro f l2 obj r h hlast
    rw [List.cons_append, buildObj] at h
    cases hp : parseCellValue g.rawType (cellAt row g.col) with
    | error e => rw [hp] at h; cases h
    | ok v =>
      rw [hp] at h
      exact ih f l2 _ r h hlast

/-- Every record of the data-row loop arises from one non-blank source row. -/
theorem readRows_mem (fields : List Field) :
    ∀ (rowsL : List (List String)) (ri : Nat) (items : List DataRec) (r : DataRec),
      readRows fields ri rowsL = .ok items → r ∈ items →
      ∃ (rIdx : Nat) (row : List String), row ∈ rowsL ∧ isEmptyRow row = false ∧
        buildObj rIdx row fields emptyRec = .ok r := by
  intro rowsL
  induction rowsL with
  | nil =>
    intro ri items r h hm
    rw [readRows] at h
    cases h
    cases hm
  | cons row rest ih =>
    intro ri items r h hm
    rw [readRows] at h
    by_cases he : isEmptyRow row = true
    · rw [if_pos he] at h
      obtain ⟨ri', row', hmem, hne, hb⟩ := ih (ri + 1) items r h hm
      exact ⟨ri', row', by simp [hmem], hne, hb⟩
    · rw [if_neg he] at h
      cases hb : buildObj ri row fields emptyRec with
      | error e => rw [hb] at h; cases h
      | ok obj =>
        rw [hb] at h
        cases hrest : readRows fields (ri + 1) rest with
        | error e => rw [hrest] at h; cases h
        | ok tailItems =>
          rw [hrest] at h
          cases h
          rcases List.mem_cons.mp hm with hm | hm
          · subst hm
            exact ⟨ri, row, by simp, Bool.eq_false_iff.mpr he, hb⟩
          · obtain ⟨ri', row', hmem, hne, hb'⟩ := ih (ri + 1) tailItems r hrest hm
            exact ⟨ri', row', by simp [hmem], hne, hb'⟩

/-- C10: duplicate raw field names in a define row yield one field descriptor
per cell, without deduplication and without being an error source, and every
decoded record maps the shared raw name to the value decoded from the
rightmost (highest-column) duplicate, the earlier columns being overwritten. -/
theorem duplicate_raw_names_last_wins :
    (∀ (rows : List (List String)) (dr : Nat) (flag : String) (fs : List Field)
        (i : Nat) (ci : String) (j : Nat) (cj : String) (f g : Field),
      parseFieldsFromDefineRow rows dr flag = .ok fs →
      (i, ci) ∈ withIdx 0 (rows.getD (dr - 1) []) →
      (j, cj) ∈ withIdx 0 (rows.getD (dr - 1) []) →
      cellStep flag dr i ci = .ok (some f) →
      cellStep flag dr j cj = .ok (some g) →
      i ≠ j → f.rawName = g.rawName →
      f ∈ fs ∧ g ∈ fs ∧ f ≠ g) ∧
    (∀ (flag : String) (dr : Nat) (cells : List (Nat × String)),
      (∀ p ∈ cells, (cellStep flag dr p.1 p.2).isOk = true) →
      (parseCells flag dr cells).isOk = true) ∧
    (∀ (rows : List (List String)) (dr : Nat) (flag : String) (fs : List Field)
        (rIdx : Nat) (row : List String) (r : DataRec) (f : Field),
      parseFieldsFromDefineRow rows dr flag = .ok fs →
      buildObj rIdx row fs emptyRec = .ok r →
      f ∈ fs →
      (∀ g ∈ fs, g.rawName = f.rawName → g.col ≤ f.col) →
      ∃ v, parseCellValue f.rawType (cellAt row f.col) = .ok v ∧
        r f.rawName = some v) ∧
    (∀ (rows : List (List String)) (dataStart : Nat) (fields : List Field)
        (items : List DataRec) (r : DataRec),
      readHorizontalItems rows dataStart fields = .ok items → r ∈ items →
      ∃ (rIdx : Nat) (row : List String),
        row ∈ rows.drop ((if dataStart = 0 then 1 else dataStart) - 1) ∧
        isEmptyRow row = false ∧ buildObj rIdx row fields emptyRec = .ok r) := by
  refine ⟨?_, parseCells_ok_of_all, ?_, ?_⟩
  · intro rows dr flag fs i ci j cj f g h hmi hmj hsi hsj hij hname
    obtain ⟨hpc, _⟩ := parseFields_ok_inv rows dr flag fs h
    refine ⟨parseCells_mem_of_step flag dr _ fs i ci f hpc hmi hsi,
      parseCells_mem_of_step flag dr _ fs j cj g hpc hmj hsj, ?_⟩
    intro hfg
    have hci : f.col = i := cellStep_col flag dr i ci f hsi
    have hcj : g.col = j := cellStep_col flag dr j cj g hsj
    rw [hfg] at hci
    omega
  · intro rows dr flag fs rIdx row r f h hb hf hmax
    obtain ⟨hpc, _⟩ := parseFields_ok_inv rows dr flag fs h
    obtain ⟨_, hpw⟩ := parseCells_cols flag dr (rows.getD (dr - 1) []) 0 fs hpc
    obtain ⟨l1, l2, rfl⟩ := List.append_of_mem hf
    have hlt : ∀ g ∈ l2, f.col < g.col := fun g hg =>
      List.rel_of_pairwise_cons (hpw.sublist (List.sublist_append_right l1 (f :: l2))) hg
    have hno : ∀ g ∈ l2, g.rawName ≠ f.rawName := by
      intro g hg hn
      have h1 := hmax g (by simp [hg]) hn
      have h2 := hlt g hg
      omega
    exact buildObj_last rIdx row l1 f l2 emptyRec r hb hno
  · intro rows dataStart fields items r h hm
    rw [readHorizontalItems] at h
    exact readRows_mem fields _ _ items r h hm

/-- Witness for C10: the define row `a#int`, `a#int` parses to two distinct
descriptors and the decoded record maps `a` to the value of column 2. -/
theorem duplicate_raw_names_last_wins_witness :
    ((⟨"a", "A", "int", "int", 0, .all⟩ : Field) ∈
        [(⟨"a", "A", "int", "int", 0, .all⟩ : Field), ⟨"a", "A", "int", "int", 1, .all⟩] ∧
      (⟨"a", "A", "int", "int", 1, .all⟩ : Field) ∈
        [(⟨"a", "A", "int", "int", 0, .all⟩ : Field), ⟨"a", "A", "int", "int", 1, .all⟩] ∧
      (⟨"a", "A", "int", "int", 0, .all⟩ : Field) ≠ ⟨"a", "A", "int", "int", 1, .all⟩) ∧
    (parseCells "" 1 [(0, "a#int")]).isOk = true ∧
    (∃ v, parseCellValue "int" (cellAt ["1", "2"] 1) = .ok v ∧
      recInsert (recInsert emptyRec "a" (.intV 1)) "a" (.intV 2) "a" = some v) ∧
    (∃ (rIdx : Nat) (row : List String),
      row ∈ [["a#int", "a#int"], ["1", "2"]].drop ((if 2 = 0 then 1 else 2) - 1) ∧
      isEmptyRow row = false ∧
      buildObj rIdx row
        [(⟨"a", "A", "int", "int", 0, .all⟩ : Field), ⟨"a", "A", "int", "int", 1, .all⟩]
        emptyRec = .ok (recInsert (recInsert emptyRec "a" (.intV 1)) "a" (.intV 2))) := by
  refine ⟨?_, ?_, ?_, ?_⟩
  · exact duplicate_raw_names_last_wins.1 [["a#int", "a#int"]] 1 ""
      [⟨"a", "A", "int", "int", 0, .all⟩, ⟨"a", "A", "int", "int", 1, .all⟩]
      0 "a#int" 1 "a#int" _ _ (by decide) (by decide) (by decide) (by decide) (by decide)
      (by decide) rfl
  · exact duplicate_raw_names_last_wins.2.1 "" 1 [(0, "a#int")] (by decide)
  · exact duplicate_raw_names_last_wins.2.2.1 [["a#int", "a#int"]] 1 ""
      [⟨"a", "A", "int", "int", 0, .all⟩, ⟨"a", "A", "int", "int", 1, .all⟩]
      1 ["1", "2"] (recInsert (recInsert emptyRec "a" (.intV 1)) "a" (.intV 2))
      ⟨"a", "A", "int", "int", 1, .all⟩ (by decide) rfl (by decide) (by decide)
  · exact duplicate_raw_names_last_wins.2.2.2 [["a#int", "a#int"], ["1", "2"]] 2
      [⟨"a", "A", "int", "int", 0, .all⟩, ⟨"a", "A", "int", "int", 1, .all⟩]
      [recInsert (recInsert emptyRec "a" (.intV 1)) "a" (.intV 2)]
      (recInsert (recInsert emptyRec "a" (.intV 1)) "a" (.intV 2)) rfl (by simp)

/-- A successfully registered sheet found its derived key absent and pushed
it, with its origin, onto the seen keys. -/
theorem addSheetGen_ok_inv
    (parser : List (List String) → Nat → String → Except Err (List Field))
    (flag : String) (agg : Agg) (origin sheetName : String)
    (rows : List (List String)) (agg' : Agg)
    (h : addSheetGen parser flag agg origin sheetName rows = .ok agg') :
    agg.seenKeys.lookup (derivedKey sheetName) = none ∧
    agg'.seenKeys = (derivedKey sheetName, origin) :: agg.seenKeys := by
  rw [addSheetGen] at h
  cases hd : detectHeaderSpec rows with
  | error e => simp only [hd] at h; cases h
  | ok spec =>
    simp only [hd] at h
    by_cases hv : spec.orientation = .vertical
    · rw [if_pos hv] at h; cases h
    · rw [if_neg hv] at h
      cases hp : parser rows spec.defineRow flag with
      | error e => simp only [hp] at h; cases h
      | ok fields =>
        simp only [hp] at h
        cases hr : readHorizontalItems rows (spec.defineRow + 1) fields with
        | error e => simp only [hr] at h; cases h
        | ok items =>
          simp only [hr] at h
          by_cases ht : exportName sheetName = ""
          · rw [if_pos ht] at h; cases h
          · rw [if_neg ht] at h
            cases hk : agg.seenKeys.lookup (lowerFirst (pluralizeTypeName (exportName sheetName))) with
            | some prev => simp only [hk] at h; cases h
            | none =>
              simp only [hk] at h
              cases h
              exact ⟨hk, rfl⟩

/-- A sheet whose stages pass (witnessed by a successful registration from
some aggregate) fails from any aggregate that already holds its derived key,
with the duplicate-key error naming both origins. -/
theorem addSheetGen_dup
    (parser : List (List String) → Nat → String → Except Err (List Field))
    (flag : String) (agg agg0 agg0' : Agg) (origin sheetName : String)
    (rows : List (List String)) (prev : String)
    (h : addSheetGen parser flag agg0 origin sheetName rows = .ok agg0')
    (hk : agg.seenKeys.lookup (derivedKey sheetName) = some prev) :
    addSheetGen parser flag agg origin sheetName rows =
      .error (.duplicateKey (derivedKey sheetName) origin prev) := by
  rw [addSheetGen] at h ⊢
  cases hd : detectHeaderSpec rows with
  | error e => simp only [hd] at h; cases h
  | ok spec =>
    simp only [hd] at h ⊢
    by_cases hv : spec.orientation = .vertical
    · rw [if_pos hv] at h; cases h
    · rw [if_neg hv] at h ⊢
      cases hp : parser rows spec.defineRow flag with
      | error e => simp only [hp] at h; cases h
      | ok fields =>
        simp only [hp] at h ⊢
        cases hr : readHorizontalItems rows (spec.defineRow + 1) fields with
        | error e => simp only [hr] at h; cases h
        | ok items =>
          simp only [hr] at h ⊢
          by_cases ht : exportName sheetName = ""
          · rw [if_pos ht] at h; cases h
          · rw [if_neg ht] at h ⊢
            rw [show agg.seenKeys.lookup (lowerFirst (pluralizeTypeName (exportName sheetName))) =
              some prev from hk]
            rfl

/-- A key that `lookup` misses heads no entry of the association list. -/
theorem lookup_none_not_mem (k : String) :
    ∀ l : List (String × String), l.lookup k = none → k ∉ l.map Prod.fst := by
  intro l
  induction l with
  | nil => intro _; simp
  | cons p rest ih =>
    intro h
    obtain ⟨a, b⟩ := p
    rw [List.lookup] at h
    cases hk : (k == a) with
    | true => simp only [hk] at h; cases h
    | false =>
      simp only [hk] at h
      simp only [List.map_cons, List.mem_cons]
      rintro (hka | hmem)
      · rw [hka] at hk
        simp at hk
      · exact ih h hmem

/-- The sheet loop preserves distinctness of the registered keys. -/
theorem processSheets_nodup (flag : String) :
    ∀ (sheets : List (String × String × List (List String))) (agg agg' : Agg),
      (agg.seenKeys.map Prod.fst).Nodup →
      processSheets flag agg sheets = .ok agg' →
      (agg'.seenKeys.map Prod.fst).Nodup := by
  intro sheets
  induction sheets with
  | nil =>
    intro agg agg' hnd h
    rw [processSheets] at h
    cases h
    exact hnd
  | cons s rest ih =>
    intro agg agg' hnd h
    obtain ⟨o, n, r⟩ := s
    rw [processSheets] at h
    cases ha : addSheet flag agg o n r with
    | error e => rw [ha] at h; cases h
    | ok a' =>
      rw [ha] at h
      obtain ⟨hnone, hkeys⟩ := addSheetGen_ok_inv _ flag agg o n r a' ha
      refine ih a' agg' ?_ h
      rw [hkeys, List.map_cons]
      exact List.Nodup.cons (lookup_none_not_mem _ _ hnone) hnd

/-- C2: successfully registered jsonKeys are pairwise distinct; registering a
sheet whose derived jsonKey is already present fails with the duplicate-key
error naming both origins; and for two sheets deriving the same jsonKey this
happens in whichever order the two are processed. -/
theorem unique_json_keys :
    (∀ (flag : String) (sheets : List (String × String × List (List String))) (agg' : Agg),
      processSheets flag emptyAgg sheets = .ok agg' →
      (agg'.seenKeys.map Prod.fst).Nodup) ∧
    (∀ (flag : String) (agg agg0 agg0' : Agg) (origin name : String)
        (rows : List (List String)) (prev : String),
      addSheet flag agg0 origin name rows = .ok agg0' →
      agg.seenKeys.lookup (derivedKey name) = some prev →
      addSheet flag agg origin name rows =
        .error (.duplicateKey (derivedKey name) origin prev)) ∧
    (∀ (flag o1 n1 o2 n2 : String) (r1 r2 : List (List String)) (a1 a2 : Agg),
      derivedKey n1 = derivedKey n2 →
      addSheet flag emptyAgg o1 n1 r1 = .ok a1 →
      addSheet flag emptyAgg o2 n2 r2 = .ok a2 →
      processSheets flag emptyAgg [(o1, n1, r1), (o2, n2, r2)] =
        .error (.duplicateKey (derivedKey n2) o2 o1) ∧
      processSheets flag emptyAgg [(o2, n2, r2), (o1, n1, r1)] =
        .error (.duplicateKey (derivedKey n1) o1 o2)) := by
  have hstep : ∀ (flag o1 n1 o2 n2 : String) (r1 r2 : List (List String)) (a1 a2 : Agg),
      derivedKey n1 = derivedKey n2 →
      addSheet flag emptyAgg o1 n1 r1 = .ok a1 →
      addSheet flag emptyAgg o2 n2 r2 = .ok a2 →
      processSheets flag emptyAgg [(o1, n1, r1), (o2, n2, r2)] =
        .error (.duplicateKey (derivedKey n2) o2 o1) := by
    intro flag o1 n1 o2 n2 r1 r2 a1 a2 hkey h1 h2
    obtain ⟨_, hkeys1⟩ := addSheetGen_ok_inv _ flag emptyAgg o1 n1 r1 a1 h1
    have hk : a1.seenKeys.lookup (derivedKey n2) = some o1 := by
      rw [hkeys1, ← hkey]
      show List.lookup (derivedKey n1) ((derivedKey n1, o1) :: emptyAgg.seenKeys) = some o1
      rw [List.lookup]
      simp
    have hdup : addSheet flag a1 o2 n2 r2 =
        .error (.duplicateKey (derivedKey n2) o2 o1) :=
      addSheetGen_dup parseFieldsFromDefineRow flag a1 emptyAgg a2 o2 n2 r2 o1 h2 hk
    simp only [processSheets, h1, hdup]
  refine ⟨?_, ?_, ?_⟩
  · intro flag sheets agg' h
    exact processSheets_nodup flag sheets emptyAgg agg' (by show ([] : List String).Nodup; simp) h
  · intro flag agg agg0 agg0' origin name rows prev h hk
    exact addSheetGen_dup parseFieldsFromDefineRow flag agg agg0 agg0' origin name rows prev h hk
  · intro flag o1 n1 o2 n2 r1 r2 a1 a2 hkey h1 h2
    exact ⟨hstep flag o1 n1 o2 n2 r1 r2 a1 a2 hkey h1 h2,
      hstep flag o2 n2 o1 n1 r2 r1 a2 a1 hkey.symm h2 h1⟩

/-- Witness for C2: the sheet names `Item` and `item` both derive the key
`items`; processing them in either order fails with the duplicate-key error
naming both files, and a single registered sheet leaves distinct keys. -/
theorem unique_json_keys_witness :
    (∃ a : Agg, processSheets "" emptyAgg [("f1", "Item", [["a#int"], ["1"]])] = .ok a ∧
      (a.seenKeys.map Prod.fst).Nodup) ∧
    processSheets "" emptyAgg
        [("f1", "Item", [["a#int"], ["1"]]), ("f2", "item", [["a#int"], ["1"]])] =
      .error (.duplicateKey "items" "f2" "f1") ∧
    processSheets "" emptyAgg
        [("f2", "item", [["a#int"], ["1"]]), ("f1", "Item", [["a#int"], ["1"]])] =
      .error (.duplicateKey "items" "f1" "f2") ∧
    addSheet "" ⟨[], [], [("items", "f0")], []⟩ "f1" "Item" [["a#int"], ["1"]] =
      .error (.duplicateKey "items" "f1" "f0") := by
  obtain ⟨a1, h1⟩ : ∃ a, addSheet "" emptyAgg "f1" "Item" [["a#int"], ["1"]] = .ok a := ⟨_, rfl⟩
  obtain ⟨a2, h2⟩ : ∃ a, addSheet "" emptyAgg "f2" "item" [["a#int"], ["1"]] = .ok a := ⟨_, rfl⟩
  have hkey : derivedKey "Item" = derivedKey "item" := by decide
  obtain ⟨ho1, ho2⟩ := unique_json_keys.2.2 "" "f1" "Item" "f2" "item"
    [["a#int"], ["1"]] [["a#int"], ["1"]] a1 a2 hkey h1 h2
  refine ⟨⟨a1, ?_, ?_⟩, ho1, ho2, ?_⟩
  · simp only [processSheets, h1]
  · exact unique_json_keys.1 "" [("f1", "Item", [["a#int"], ["1"]])] a1
      (by simp only [processSheets, h1])
  · exact unique_json_keys.2.1 "" ⟨[], [], [("items", "f0")], []⟩ emptyAgg a1
      "f1" "Item" [["a#int"], ["1"]] "f0" h1 (by decide)

/-- The C# field renderer only ever fails with an unsupported-type error. -/
theorem csFieldLines_shape :
    ∀ (fields : List Field) (e : Err), csFieldLines fields = .error e →
      ∃ t, e = .unsupportedType t := by
  intro fields
  induction fields with
  | nil => intro e h; cases h
  | cons g rest ih =>
    intro e h
    rw [csFieldLines] at h
    cases hg : mapCSType g.rawType with
    | none =>
      simp only [hg] at h
      cases h
      exact ⟨g.rawType, rfl⟩
    | some cst =>
      simp only [hg] at h
      cases hr : csFieldLines rest with
      | error e' =>
        simp only [hr] at h
        cases h
        exact ih _ hr
      | ok s => simp only [hr] at h; cases h

/-- A field whose raw type the C# table misses makes the field renderer fail
with an unsupported-type error. -/
theorem csFieldLines_err :
    ∀ (fields : List Field) (f : Field), f ∈ fields → mapCSType f.rawType = none →
      ∃ t, csFieldLines fields = .error (.unsupportedType t) := by
  intro fields
  induction fields with
  | nil => simp
  | cons g rest ih =>
    intro f hf hnone
    cases hg : mapCSType g.rawType with
    | none => exact ⟨g.rawType, by rw [csFieldLines]; simp only [hg]⟩
    | some cst =>
      rcases List.mem_cons.mp hf with rfl | hf
      · rw [hg] at hnone; cases hnone
      · obtain ⟨t, ht⟩ := ih f hf hnone
        exact ⟨t, by rw [csFieldLines]; simp only [hg, ht]⟩

/-- A type whose C# field rendering fails makes the class renderer fail with
an unsupported-type error. -/
theorem csTypeDecls_err (schemas : String → List Field) :
    ∀ (ordered : List String) (tn : String), tn ∈ ordered →
      (∃ t, csFieldLines (schemas tn) = .error (.unsupportedType t)) →
      ∃ t, csTypeDecls schemas ordered = .error (.unsupportedType t) := by
  intro ordered
  induction ordered with
  | nil => simp
  | cons tn' rest ih =>
    intro tn htn hex
    cases hf' : csFieldLines (schemas tn') with
    | error e =>
      obtain ⟨t, htt⟩ := csFieldLines_shape (schemas tn') e hf'
      exact ⟨t, by rw [csTypeDecls]; simp only [hf', htt]⟩
    | ok s =>
      rcases List.mem_cons.mp htn with rfl | htn
      · obtain ⟨t0, ht0⟩ := hex
        rw [ht0] at hf'
        cases hf'
      · obtain ⟨t, ht⟩ := ih tn htn hex
        exact ⟨t, by rw [csTypeDecls]; simp only [hf', ht]⟩

/-- The TypeScript field renderer only ever fails with an unsupported-type
error. -/
theorem tsFieldLines_shape :
    ∀ (fields : List Field) (e : Err), tsFieldLines fields = .error e →
      ∃ t, e = .unsupportedType t := by
  intro fields
  induction fields with
  | nil => intro e h; cases h
  | cons g rest ih =>
    intro e h
    rw [tsFieldLines] at h
    cases hg : mapTSType g.rawType with
    | none =>
      simp only [hg] at h
      cases h
      exact ⟨g.rawType, rfl⟩
    | some tst =>
      simp only [hg] at h
      cases hr : tsFieldLines rest with
      | error e' =>
        simp only [hr] at h
        cases h
        exact ih _ hr
      | ok s => simp only [hr] at h; cases h

/-- A field whose raw type the TypeScript table misses makes the field
renderer fail with an unsupported-type error. -/
theorem tsFieldLines_err :
    ∀ (fields : List Field) (f : Field), f ∈ fields → mapTSType f.rawType = none →
      ∃ t, tsFieldLines fields = .error (.unsupportedType t) := by
  intro fields
  induction fields with
  | nil => simp
  | cons g rest ih =>
    intro f hf hnone
    cases hg : mapTSType g.rawType with
    | none => exact ⟨g.rawType, by rw [tsFieldLines]; simp only [hg]⟩
    | some tst =>
      rcases List.mem_cons.mp hf with rfl | hf
      · rw [hg] at hnone; cases hnone
      · obtain ⟨t, ht⟩ := ih f hf hnone
        exact ⟨t, by rw [tsFieldLines]; simp only [hg, ht]⟩

/-- A type whose TypeScript field rendering fails makes the interface
renderer fail with an unsupported-type error. -/
theorem tsTypeDecls_err (schemas : String → List Field) :
    ∀ (ordered : List String) (tn : String), tn ∈ ordered →
      (∃ t, tsFieldLines (schemas tn) = .error (.unsupportedType t)) →
      ∃ t, tsTypeDecls schemas ordered = .error (.unsupportedType t) := by
  intro ordered
  induction ordered with
  | nil => simp
  | cons tn' rest ih =>
    intro tn htn hex
    cases hf' : tsFieldLines (schemas tn') with
    | error e =>
      obtain ⟨t, htt⟩ := tsFieldLines_shape (schemas tn') e hf'
      exact ⟨t, by rw [tsTypeDecls]; simp only [hf', htt]⟩
    | ok s =>
      rcases List.mem_cons.mp htn with rfl | htn
      · obtain ⟨t0, ht0⟩ := hex
        rw [ht0] at hf'
        cases hf'
      · obtain ⟨t, ht⟩ := ih tn htn hex
        exact ⟨t, by rw [tsTypeDecls]; simp only [hf', ht]⟩

/-- Counterexample to C1 as stated: an aggregate holding a field whose raw
type `uint128` is absent from every TypeMapper table, on which the Go
emitter nevertheless succeeds — it renders the parse-time `GoType` without
re-resolving the raw type and has no failure path at all. -/
theorem emitters_recheck_counterexample :
    mapGoType "uint128" = none ∧ mapCSType "uint128" = none ∧
    mapTSType "uint128" = none ∧
    (generateGoBundle "config" "AllConfig" ["T"]
      (fun _ => [⟨"x", "X", "uint128", "int", 0, .all⟩])).isOk = true :=
  ⟨rfl, rfl, rfl, rfl⟩

/-- C1 (amended): the C# and TypeScript emitters re-resolve every field's
raw type through their TypeMapper tables at render time and fail with an
unsupported-type error whenever a rendered field's raw type is absent from
that table; the Go emitter renders the Go type resolved at parse time and
never fails. -/
theorem emitters_recheck_amended :
    (∀ (pkg rootName : String) (ordered : List String) (schemas : String → List Field),
      (generateGoBundle pkg rootName ordered schemas).isOk = true) ∧
    (∀ (rootName : String) (ordered : List String) (schemas : String → List Field)
        (tn : String) (f : Field),
      tn ∈ ordered → f ∈ schemas tn →
      (mapCSType f.rawType = none →
        ∃ t, generateCSBundle rootName ordered schemas = .error (.unsupportedType t)) ∧
      (mapTSType f.rawType = none →
        ∃ t, generateTSBundle rootName ordered schemas = .error (.unsupportedType t))) := by
  constructor
  · intro pkg rootName ordered schemas
    rfl
  · intro rootName ordered schemas tn f htn hf
    constructor
    · intro hnone
      obtain ⟨t, ht⟩ := csTypeDecls_err schemas ordered tn htn
        (csFieldLines_err (schemas tn) f hf hnone)
      exact ⟨t, by rw [generateCSBundle]; simp only [ht]⟩
    · intro hnone
      obtain ⟨t, ht⟩ := tsTypeDecls_err schemas ordered tn htn
        (tsFieldLines_err (schemas tn) f hf hnone)
      exact ⟨t, by rw [generateTSBundle]; simp only [ht]⟩

/-- Witness for C1 (amended): on a one-type aggregate whose only field has
raw type `uint128` the Go emitter succeeds while the C# and TypeScript
emitters fail with unsupported-type errors. -/
theorem emitters_recheck_amended_witness :
    (generateGoBundle "config" "AllConfig" ["T"]
      (fun _ => [⟨"x", "X", "uint128", "int", 0, .all⟩])).isOk = true ∧
    (∃ t, generateCSBundle "AllConfig" ["T"]
      (fun _ => [⟨"x", "X", "uint128", "int", 0, .all⟩]) = .error (.unsupportedType t)) ∧
    (∃ t, generateTSBundle "AllConfig" ["T"]
      (fun _ => [⟨"x", "X", "uint128", "int", 0, .all⟩]) = .error (.unsupportedType t)) := by
  refine ⟨emitters_recheck_amended.1 "config" "AllConfig" ["T"] _, ?_, ?_⟩
  · exact (emitters_recheck_amended.2 "AllConfig" ["T"]
      (fun _ => [⟨"x", "X", "uint128", "int", 0, .all⟩]) "T"
      ⟨"x", "X", "uint128", "int", 0, .all⟩ (by simp) (by simp)).1 (by decide)
  · exact (emitters_recheck_amended.2 "AllConfig" ["T"]
      (fun _ => [⟨"x", "X", "uint128", "int", 0, .all⟩]) "T"
      ⟨"x", "X", "uint128", "int", 0, .all⟩ (by simp) (by simp)).2 (by decide)

/-- C7: the cell value decoder maps `\x7b1,2,3\x7d` at raw type `int[]` to the
ordered sequence `[1,2,3]`, `\x7b\x7b1,2\x7d,\x7b3,4\x7d\x7d` at `int[][]` to
`[[1,2],[3,4]]`, and empty braces or the empty string at either array type to
an empty sequence. -/
theorem braceArray_round_trip :
    parseCellValue "int[]" "\x7b1,2,3\x7d" = .ok (.arrV [1, 2, 3]) ∧
    parseCellValue "int[][]" "\x7b\x7b1,2\x7d,\x7b3,4\x7d\x7d" = .ok (.arr2V [[1, 2], [3, 4]]) ∧
    parseCellValue "int[]" "\x7b\x7d" = .ok (.arrV []) ∧
    parseCellValue "int[][]" "\x7b\x7d" = .ok (.arr2V []) ∧
    parseCellValue "int[]" "" = .ok (.arrV []) ∧
    parseCellValue "int[][]" "" = .ok (.arr2V []) := by
  decide

/-- C8: on the empty cell string the decoder returns each supported raw
type's zero value: 0 for the integer types, the empty sequence (never null)
for the array types, 0.0 for the float types, false for bool, and the empty
string for string. -/
theorem empty_cell_zero_value :
    parseCellValue "int" "" = .ok (.intV 0) ∧
    parseCellValue "int32" "" = .ok (.intV 0) ∧
    parseCellValue "int64" "" = .ok (.intV 0) ∧
    parseCellValue "int[]" "" = .ok (.arrV []) ∧
    parseCellValue "int[][]" "" = .ok (.arr2V []) ∧
    parseCellValue "float" "" = .ok (.floatV 0) ∧
    parseCellValue "float32" "" = .ok (.floatV 0) ∧
    parseCellValue "float64" "" = .ok (.floatV 0) ∧
    parseCellValue "bool" "" = .ok (.boolV false) ∧
    parseCellValue "string" "" = .ok (.strV "") := by
  decide

/-- C3: header detection checks its three cases in fixed precedence. With at
least 3 rows and a `#` in row index 2 the header is 3 rows with define row 3
and orientation decided by the trimmed cell at row 0, column 0 (`"2"` gives
Vertical, anything else Horizontal); otherwise with at least 2 rows and a `#`
in row index 1 it is 2 rows, Horizontal, define row 2; otherwise with at
least 1 row and a `#` in row index 0 it is 1 row, Horizontal, define row 1;
otherwise detection fails. -/
theorem detectHeaderSpec_cases (rows : List (List String)) :
    (3 ≤ rows.length → rowHasFieldDefs (rows.getD 2 []) = true →
      detectHeaderSpec rows =
        .ok ⟨3,
          if goTrimSpace ((rows.getD 0 []).getD 0 "") = "2" then .vertical else .horizontal,
          3⟩) ∧
    (¬(3 ≤ rows.length ∧ rowHasFieldDefs (rows.getD 2 []) = true) →
      2 ≤ rows.length → rowHasFieldDefs (rows.getD 1 []) = true →
      detectHeaderSpec rows = .ok ⟨2, .horizontal, 2⟩) ∧
    (¬(3 ≤ rows.length ∧ rowHasFieldDefs (rows.getD 2 []) = true) →
      ¬(2 ≤ rows.length ∧ rowHasFieldDefs (rows.getD 1 []) = true) →
      1 ≤ rows.length → rowHasFieldDefs (rows.getD 0 []) = true →
      detectHeaderSpec rows = .ok ⟨1, .horizontal, 1⟩) ∧
    (¬(3 ≤ rows.length ∧ rowHasFieldDefs (rows.getD 2 []) = true) →
      ¬(2 ≤ rows.length ∧ rowHasFieldDefs (rows.getD 1 []) = true) →
      ¬(1 ≤ rows.length ∧ rowHasFieldDefs (rows.getD 0 []) = true) →
      detectHeaderSpec rows = .error .headerDetection) := by
  have a1_eq : ∀ row0 : List String,
      (if 0 < row0.length then goTrimSpace (row0.getD 0 "") else "") =
        goTrimSpace (row0.getD 0 "") := by
    intro row0
    cases row0 with
    | nil => decide
    | cons a l => simp
  refine ⟨fun h3 hd => ?_, fun hn3 h2 hd => ?_, fun hn3 hn2 h1 hd => ?_, fun hn3 hn2 hn1 => ?_⟩
  · rw [detectHeaderSpec, if_pos ⟨h3, hd⟩]
    simp only [a1_eq]
  · rw [detectHeaderSpec, if_neg hn3, if_pos ⟨h2, hd⟩]
  · rw [detectHeaderSpec, if_neg hn3, if_neg hn2, if_pos ⟨h1, hd⟩]
  · rw [detectHeaderSpec, if_neg hn3, if_neg hn2, if_neg hn1]

/-- Witness for C3: each of the four precedence cases at a concrete sheet. -/
theorem detectHeaderSpec_cases_witness :
    detectHeaderSpec [["2"], [""], ["x#int"]] = .ok ⟨3, .vertical, 3⟩ ∧
    detectHeaderSpec [["1"], [""], ["x#int"]] = .ok ⟨3, .horizontal, 3⟩ ∧
    detectHeaderSpec [["a"], ["x#int"]] = .ok ⟨2, .horizontal, 2⟩ ∧
    detectHeaderSpec [["x#int"]] = .ok ⟨1, .horizontal, 1⟩ ∧
    detectHeaderSpec [["a"], ["b"]] = .error .headerDetection := by
  refine ⟨?_, ?_, ?_, ?_, ?_⟩
  · exact ((detectHeaderSpec_cases [["2"], [""], ["x#int"]]).1 (by decide) (by decide)).trans
      (by decide)
  · exact ((detectHeaderSpec_cases [["1"], [""], ["x#int"]]).1 (by decide) (by decide)).trans
      (by decide)
  · exact (detectHeaderSpec_cases [["a"], ["x#int"]]).2.1 (by decide) (by decide) (by decide)
  · exact (detectHeaderSpec_cases [["x#int"]]).2.2.1 (by decide) (by decide) (by decide) (by decide)
  · exact (detectHeaderSpec_cases [["a"], ["b"]]).2.2.2 (by decide) (by decide) (by decide)

/-- C4: when the detected header spec selects the vertical orientation the
sheet is rejected with the unsupported-orientation error, for any
field-definition parser whatsoever: the parser is never invoked. -/
theorem vertical_orientation_aborts
    (parser : List (List String) → Nat → String → Except Err (List Field))
    (exportFlag : String) (agg : Agg) (origin sheetName : String)
    (rows : List (List String)) (spec : HeaderSpec)
    (hdet : detectHeaderSpec rows = .ok spec)
    (hvert : spec.orientation = .vertical) :
    addSheetGen parser exportFlag agg origin sheetName rows =
      .error (.unsupportedOrientation origin) := by
  rw [addSheetGen, hdet]
  simp only [Except.bind, bind]
  rw [if_pos hvert]

/-- Witness for C4: a vertical sheet aborts with the orientation error even
under a parser that would itself fail, so field parsing is never reached. -/
theorem vertical_orientation_aborts_witness :
    addSheetGen (fun _ _ _ => .error .emptySchema) "" emptyAgg
        "a.xlsx[Item]" "Item" [["2"], [""], ["x#int"]] =
      .error (.unsupportedOrientation "a.xlsx[Item]") :=
  vertical_orientation_aborts (fun _ _ _ => .error .emptySchema) "" emptyAgg
    "a.xlsx[Item]" "Item" [["2"], [""], ["x#int"]] ⟨3, .vertical, 3⟩ (by decide) rfl

end Genxls
